import Mathlib

/-!
# gen-g16-proof: a shallow embedding of `main.go`

The program reads a Groth16 proof `(A, B, C)` and the verification-key point
`Delta` as radix-prefixed text, decodes them through the bn256 library,
computes `B' = Delta + eta * B` and `C' = C + eta * A`, and renders the result
as hexadecimal text.

Conventions of the embedding:

* a Go `string` is a `List Char` (`GoString`).  Go scans strings byte by byte;
  every byte of a non-ASCII character is at least `0x80`, so it is neither a
  prefix, a sign nor a digit, exactly like the non-ASCII `Char` of the model;
* a Go `byte` is a `Fin 256`, a `[]byte` is a `List Byte`;
* a `*big.Int` is an `Int`;
* a Go `panic` is `none`.
-/

namespace GenG16

/-! ## Strings, bytes and big integers (Go standard library) -/

/-- A Go string. -/
abbrev GoString := List Char

/-- A Go byte. -/
abbrev Byte := Fin 256

/-- The byte holding the low eight bits of `n`. -/
def byte (n : Nat) : Byte := ⟨n % 256, Nat.mod_lt n (by decide)⟩

/-- Go `strings.HasPrefix(s, p)`. -/
def hasPrefix : GoString → GoString → Bool
  | _, [] => true
  | [], _ :: _ => false
  | c :: s, d :: p => c == d && hasPrefix s p

/-- The digit value `math/big` gives a byte while scanning in a base of at
most 36 (`nat.scan`): `0-9`, then `a-z` and `A-Z` both counting from ten;
any other byte gets `MaxBase + 1 = 63`, which is no digit of any base. -/
def digitVal (ch : Char) : Nat :=
  if 48 ≤ ch.toNat ∧ ch.toNat ≤ 57 then ch.toNat - 48
  else if 97 ≤ ch.toNat ∧ ch.toNat ≤ 122 then ch.toNat - 97 + 10
  else if 65 ≤ ch.toNat ∧ ch.toNat ≤ 90 then ch.toNat - 65 + 10
  else 63

/-- The digit loop of `nat.scan` for an explicit base `b` (no prefix, no
separator, no fraction): bytes are consumed while they are digits of base
`b`; the result is the accumulated value, the number of digits read and the
unread rest. -/
def scanDigits (b : Nat) : GoString → Nat → Nat → Nat × Nat × GoString
  | [], z, count => (z, count, [])
  | ch :: rest, z, count =>
    if digitVal ch ≥ b then (z, count, ch :: rest)
    else scanDigits b rest (z * b + digitVal ch) (count + 1)

/-- Go `new(big.Int).SetString(s, base)` for an explicit base between 2 and
36.  `scanSign` reads one byte (failing on the empty string) and takes it as
the sign when it is `-` or `+`; `nat.scan` then needs at least one digit; and
`setFromScanner` needs the whole string consumed. -/
def setString (s : GoString) (base : Nat) : Option Int :=
  match s with
  | [] => none
  | ch :: rest =>
    let neg := ch == '-'
    let body := if ch == '-' || ch == '+' then rest else ch :: rest
    match scanDigits base body 0 0 with
    | (z, count, unread) =>
      if count = 0 then none
      else if unread ≠ [] then none
      else some (if neg then -(z : Int) else (z : Int))

/-- The recursion behind `natBytes`, on a bound for the number of bytes. -/
def natBytesAux : Nat → Nat → List Byte
  | 0, _ => []
  | fuel + 1, n => if n = 0 then [] else natBytesAux fuel (n / 256) ++ [byte n]

/-- The minimal big-endian bytes of a natural number (none for zero). -/
def natBytes (n : Nat) : List Byte := natBytesAux n n

/-- Go `x.Bytes()`: the absolute value of `x` as a big-endian byte slice. -/
def bigBytes (x : Int) : List Byte := natBytes x.natAbs

/-- Go `new(big.Int).SetBytes(buf)`: `buf` read as a big-endian unsigned
integer. -/
def setBytes (buf : List Byte) : Nat := buf.foldl (fun z c => z * 256 + c.val) 0

/-- The table of `encoding/hex`. -/
def hextable : List Char := "0123456789abcdef".toList

/-- Go `hex.EncodeToString(src)`: two characters of `hextable` per byte, the
high nibble `v >> 4` first, then the low nibble `v & 0x0f`. -/
def hexEncodeToString : List Byte → GoString
  | [] => []
  | v :: src =>
    hextable.getD (v.val / 16) '0' :: hextable.getD (v.val % 16) '0' :: hexEncodeToString src

/-! ## `parseBigInt` -/

/-- The prefix dispatch of `parseBigInt`: the remainder handed to
`SetString` and the base chosen. -/
def splitRadix (s : GoString) : GoString × Nat :=
  if hasPrefix s "0x".toList || hasPrefix s "0X".toList then (s.drop 2, 16)
  else if hasPrefix s "0".toList then (s.drop 1, 8)
  else if hasPrefix s "b".toList || hasPrefix s "B".toList then (s.drop 1, 2)
  else (s, 10)

/-- `parseBigInt`: the value of the token, `none` when the code panics. -/
def parseBigInt (s : GoString) : Option Int :=
  setString (splitRadix s).1 (splitRadix s).2

/-! ## Point codec -/

/-- Go `copy(b[lo:hi], src)` on a slice `b` whose capacity is its length: the
slice expression panics unless `0 ≤ lo ≤ hi ≤ len(b)`; `copy` then writes the
first `min(hi - lo, len(src))` bytes of `src` at offset `lo`. -/
def copyInto (b : List Byte) (lo hi : Int) (src : List Byte) : Option (List Byte) :=
  if 0 ≤ lo ∧ lo ≤ hi ∧ hi ≤ (b.length : Int) then
    let n := min (hi - lo).toNat src.length
    some (b.take lo.toNat ++ src.take n ++ b.drop (lo.toNat + n))
  else none

/-- Go `b[lo:hi]` for constant bounds within the length of `b`. -/
def subSlice (b : List Byte) (lo hi : Nat) : List Byte := (b.take hi).drop lo

/-- The bn256 library as the program uses it: the two groups with
`Unmarshal`, `Marshal`, `Add` and `ScalarMult`. -/
structure CurveLib where
  /-- The type `bn256.G1`. -/
  G1 : Type
  /-- The type `bn256.G2`. -/
  G2 : Type
  /-- `(*G1).Unmarshal`, `none` when it returns an error. -/
  unmarshalG1 : List Byte → Option G1
  /-- `(*G2).Unmarshal`, `none` when it returns an error. -/
  unmarshalG2 : List Byte → Option G2
  /-- `(*G1).Marshal`. -/
  marshalG1 : G1 → List Byte
  /-- `(*G2).Marshal`. -/
  marshalG2 : G2 → List Byte
  /-- `(*G1).Add`. -/
  addG1 : G1 → G1 → G1
  /-- `(*G2).Add`. -/
  addG2 : G2 → G2 → G2
  /-- `(*G1).ScalarMult`. -/
  scalarMultG1 : G1 → Int → G1
  /-- `(*G2).ScalarMult`. -/
  scalarMultG2 : G2 → Int → G2

/-- The Go type `[2]string`. -/
abbrev Strings2 := GoString × GoString

/-- The Go type `[2][2]string`. -/
abbrev Strings2x2 := Strings2 × Strings2

/-- The buffer `parseG2Point` builds and hands to `Unmarshal` (lines 62-77),
`none` when a token is rejected or a slice expression is out of range. -/
def parseG2PointBuffer (s : Strings2x2) : Option (List Byte) := do
  let xIm ← parseBigInt s.1.1
  let xRe ← parseBigInt s.1.2
  let yIm ← parseBigInt s.2.1
  let yRe ← parseBigInt s.2.2
  let b := List.replicate (32 * 4) (0 : Byte)
  let xbIm := bigBytes xIm
  let xbRe := bigBytes xRe
  let ybIm := bigBytes yIm
  let ybRe := bigBytes yRe
  let b ← copyInto b (1 * 32 - xbIm.length) (1 * 32) xbIm
  let b ← copyInto b (2 * 32 - xbRe.length) (2 * 32) xbRe
  let b ← copyInto b (3 * 32 - ybIm.length) (3 * 32) ybIm
  let b ← copyInto b (4 * 32 - ybRe.length) (4 * 32) ybRe
  pure b

/-- `parseG2Point`: the point `Unmarshal` decodes from the buffer. -/
def parseG2Point (lib : CurveLib) (s : Strings2x2) : Option lib.G2 :=
  (parseG2PointBuffer s).bind lib.unmarshalG2

/-- One coordinate as `hexG1Point` and `hexG2Point` render it:
`"0x" + hex.EncodeToString(new(big.Int).SetBytes(field).Bytes())`. -/
def hexField (field : List Byte) : GoString :=
  "0x".toList ++ hexEncodeToString (bigBytes (setBytes field))

/-- `hexG2Point`, as a function of the buffer `b` that `p.Marshal()`
returns (128 bytes). -/
def hexG2Point (b : List Byte) : Strings2x2 :=
  let xIm := subSlice b (0 * 32) (1 * 32)
  let xRe := subSlice b (1 * 32) (2 * 32)
  let yIm := subSlice b (2 * 32) (3 * 32)
  let yRe := subSlice b (3 * 32) (4 * 32)
  ((hexField xIm, hexField xRe), (hexField yIm, hexField yRe))

/-- The buffer `parseG1Point` builds and hands to `Unmarshal` (lines
104-111), `none` when a token is rejected or a slice expression is out of
range. -/
def parseG1PointBuffer (s : Strings2) : Option (List Byte) := do
  let x ← parseBigInt s.1
  let y ← parseBigInt s.2
  let b := List.replicate (32 * 2) (0 : Byte)
  let xb := bigBytes x
  let yb := bigBytes y
  let b ← copyInto b (1 * 32 - xb.length) (1 * 32) xb
  let b ← copyInto b (2 * 32 - yb.length) (2 * 32) yb
  pure b

/-- `parseG1Point`: the point `Unmarshal` decodes from the buffer. -/
def parseG1Point (lib : CurveLib) (s : Strings2) : Option lib.G1 :=
  (parseG1PointBuffer s).bind lib.unmarshalG1

/-- `hexG1Point`, as a function of the buffer `b` that `p.Marshal()`
returns (64 bytes). -/
def hexG1Point (b : List Byte) : Strings2 :=
  let x := subSlice b (0 * 32) (1 * 32)
  let y := subSlice b (1 * 32) (2 * 32)
  (hexField x, hexField y)

/-! ## `main` -/

/-- The point of line 175:
`new(bn256.G2).Add(Delta, new(bn256.G2).ScalarMult(B, Eta))`. -/
def blindB (lib : CurveLib) (Delta B : lib.G2) (Eta : Int) : lib.G2 :=
  lib.addG2 Delta (lib.scalarMultG2 B Eta)

/-- The point of line 176:
`new(bn256.G1).Add(C, new(bn256.G1).ScalarMult(A, Eta))`. -/
def blindC (lib : CurveLib) (C A : lib.G1) (Eta : Int) : lib.G1 :=
  lib.addG1 C (lib.scalarMultG1 A Eta)

/-- The Go type `InputData`. -/
structure InputData where
  /-- Field `delta`. -/
  Delta : Strings2x2
  /-- Field `a`. -/
  A : Strings2
  /-- Field `b`. -/
  B : Strings2x2
  /-- Field `c`. -/
  C : Strings2
  /-- Field `eta`. -/
  Eta : GoString
  deriving DecidableEq

/-- The Go type `OutputData`. -/
structure OutputData where
  /-- Field `b`. -/
  B : Strings2x2
  /-- Field `c`. -/
  C : Strings2
  /-- Field `eta`. -/
  Eta : GoString
  deriving DecidableEq

/-- `main` from the decoded input record to the record it hands to
`json.Marshal` and `ioutil.WriteFile` (lines 159-177).  `entropy` is what
`bn256.RandomG1(rand.Reader)` would return: the scalar, or `none` for an
error.  The result is `none` when the program panics before writing. -/
def main (lib : CurveLib) (entropy : Option Int) (inputData : InputData) :
    Option OutputData := do
  let Delta ← parseG2Point lib inputData.Delta
  let B ← parseG2Point lib inputData.B
  let A ← parseG1Point lib inputData.A
  let C ← parseG1Point lib inputData.C
  let Eta ← if inputData.Eta = [] then entropy else parseBigInt inputData.Eta
  pure
    { B := hexG2Point (lib.marshalG2 (blindB lib Delta B Eta))
      C := hexG1Point (lib.marshalG1 (blindC lib C A Eta))
      Eta := "0x".toList ++ hexEncodeToString (bigBytes Eta) }

/-! ## Specification-side notions and test data -/

/-- The `k`-byte big-endian encoding of `v`: byte `i` is digit `k - 1 - i` of
`v` in base 256. -/
def bigEndian (k v : Nat) : List Byte :=
  (List.range k).map (fun i => byte (v / 256 ^ (k - 1 - i)))

/-- The 32-byte big-endian left-zero-padded encoding of `v`. -/
def be32 (v : Nat) : List Byte := bigEndian 32 v

/-- The value of a character as a digit, as the specification reads tokens:
`0-9`, and `a-f` or `A-F` for ten to fifteen; no value for anything else. -/
def specDigit (c : Char) : Option Nat :=
  if 48 ≤ c.toNat ∧ c.toNat ≤ 57 then some (c.toNat - 48)
  else if 97 ≤ c.toNat ∧ c.toNat ≤ 102 then some (c.toNat - 87)
  else if 65 ≤ c.toNat ∧ c.toNat ≤ 70 then some (c.toNat - 55)
  else none

/-- The character `c` is a digit of radix `b`. -/
def IsDigitOf (b : Nat) (c : Char) : Prop := ∃ d, specDigit c = some d ∧ d < b

instance (b : Nat) (c : Char) : Decidable (IsDigitOf b c) :=
  match h : specDigit c with
  | none => isFalse (by rintro ⟨d, hd, _⟩; rw [h] at hd; cases hd)
  | some d =>
    if hb : d < b then isTrue ⟨d, h, hb⟩
    else isFalse (by rintro ⟨d', hd, hlt⟩; rw [h] at hd; cases hd; exact hb hlt)

/-- The mathematical value of a digit string in radix `b`: the digit in
position `i` from the right counts `b ^ i` times its value. -/
def radixValue (b : Nat) : GoString → Nat
  | [] => 0
  | c :: ds => (specDigit c).getD 0 * b ^ ds.length + radixValue b ds

/-- The remainder of a token without the one leading sign `SetString`
accepts. -/
def dropSign : GoString → GoString
  | [] => []
  | c :: r => if c = '-' ∨ c = '+' then r else c :: r

/-- A lowercase hexadecimal digit: `0-9` or `a-f`. -/
def IsLowerHexDigit (c : Char) : Prop :=
  (48 ≤ c.toNat ∧ c.toNat ≤ 57) ∨ (97 ≤ c.toNat ∧ c.toNat ≤ 102)

instance (c : Char) : Decidable (IsLowerHexDigit c) := by
  unfold IsLowerHexDigit
  infer_instance

/-- The shape of a rendered coordinate: `0x`, then lowercase hexadecimal
digits, two per byte, the first byte not zero. -/
def IsByteHex (s : GoString) : Prop :=
  ∃ ds, s = '0' :: 'x' :: ds ∧ (∀ c ∈ ds, IsLowerHexDigit c) ∧ ds.length % 2 = 0 ∧
    ds.take 2 ≠ ['0', '0']

/-- A bilinear pairing `e : G1 × G2 → GT`, the groups `G1`, `G2` written
additively and `GT` multiplicatively. -/
structure Pairing (G1 G2 GT : Type) [AddCommGroup G1] [AddCommGroup G2] [CommGroup GT] where
  /-- The pairing. -/
  e : G1 → G2 → GT
  /-- Additivity in the first argument. -/
  add_left : ∀ a a' b, e (a + a') b = e a b * e a' b
  /-- Additivity in the second argument. -/
  add_right : ∀ a b b', e a (b + b') = e a b * e a b'

/-- The Groth16 verification equation `e(A, B) = K * e(C, Delta)`, where `K`
is the term fixed by the verification key and the public inputs. -/
def Groth16Check {G1 G2 GT : Type} [AddCommGroup G1] [AddCommGroup G2] [CommGroup GT]
    (P : Pairing G1 G2 GT) (K : GT) (A : G1) (B : G2) (C : G1) (Delta : G2) : Prop :=
  P.e A B = K * P.e C Delta

/-- The library's `Add` and `ScalarMult` are the group law and the scalar
action of the groups. -/
structure GroupLaw (lib : CurveLib) [AddCommGroup lib.G1] [AddCommGroup lib.G2] : Prop where
  /-- `Add` on G1 is the group law. -/
  addG1 : ∀ p q, lib.addG1 p q = p + q
  /-- `Add` on G2 is the group law. -/
  addG2 : ∀ p q, lib.addG2 p q = p + q
  /-- `ScalarMult` on G1 is the scalar action. -/
  scalarMultG1 : ∀ p (k : Int), lib.scalarMultG1 p k = k • p
  /-- `ScalarMult` on G2 is the scalar action. -/
  scalarMultG2 : ∀ p (k : Int), lib.scalarMultG2 p k = k • p

/-- A small stand-in for the library, used to run `main` on concrete
records: both groups are the integers under addition, a point is marshalled
as its absolute value in 64 or 128 big-endian bytes. -/
@[reducible] def intLib : CurveLib where
  G1 := Int
  G2 := Int
  unmarshalG1 := fun b => if b.length = 64 then some (setBytes b : Int) else none
  unmarshalG2 := fun b => if b.length = 128 then some (setBytes b : Int) else none
  marshalG1 := fun p => bigEndian 64 p.natAbs
  marshalG2 := fun p => bigEndian 128 p.natAbs
  addG1 := fun p q => p + q
  addG2 := fun p q => p + q
  scalarMultG1 := fun p k => k * p
  scalarMultG2 := fun p k => k * p

/-- The pairing `e(a, b) = g ^ (a * b)` on the integers, `g` a generator of
an infinite cyclic group. -/
def intPairing : Pairing Int Int (Multiplicative Int) where
  e := fun a b => Multiplicative.ofAdd (a * b)
  add_left := by
    intro a a' b
    show Multiplicative.ofAdd ((a + a') * b) = _
    rw [← ofAdd_add, add_mul]
  add_right := by
    intro a b b'
    show Multiplicative.ofAdd (a * (b + b')) = _
    rw [← ofAdd_add, mul_add]

/-- The input record of the witness of C2. -/
def sampleInput : InputData where
  Delta := (("0x1".toList, "0x2".toList), ("0x3".toList, "0x4".toList))
  A := ("0x1".toList, "0x2".toList)
  B := (("0x5".toList, "0x6".toList), ("0x7".toList, "0x8".toList))
  C := ("0x3".toList, "0x4".toList)
  Eta := "0x2".toList

/-- A second stand-in for the library, with groups of prime order 7: both
groups are the integers modulo 7, a point is marshalled as its residue in 64
or 128 big-endian bytes. -/
@[reducible] def zmodLib : CurveLib where
  G1 := ZMod 7
  G2 := ZMod 7
  unmarshalG1 := fun b => if b.length = 64 then some ((setBytes b : Nat) : ZMod 7) else none
  unmarshalG2 := fun b => if b.length = 128 then some ((setBytes b : Nat) : ZMod 7) else none
  marshalG1 := fun p => bigEndian 64 p.val
  marshalG2 := fun p => bigEndian 128 p.val
  addG1 := fun p q => p + q
  addG2 := fun p q => p + q
  scalarMultG1 := fun p k => (k : ZMod 7) * p
  scalarMultG2 := fun p k => (k : ZMod 7) * p

/-- The content of the output file after a run of `main`, `before` being its
content before the run: `ioutil.WriteFile` (line 183) is reached only when
nothing before it has panicked. -/
def outputFile (lib : CurveLib) (entropy : Option Int) (inputData : InputData)
    (before : Option OutputData) : Option OutputData :=
  match main lib entropy inputData with
  | some outputData => some outputData
  | none => before

/-- The buffer `b` with `src` written over the positions
`[hi - len(src), hi)`. -/
def writeEnd (b : List Byte) (hi : Nat) (src : List Byte) : List Byte :=
  b.take (hi - src.length) ++ src ++ b.drop hi

/-! ## Theorems -/

/-! ### Big-endian bytes -/

theorem natBytesAux_fuel : ∀ (f g n : Nat), n ≤ f → n ≤ g →
    natBytesAux f n = natBytesAux g n := by
  intro f
  induction f with
  | zero =>
    intro g n hf _
    have hn : n = 0 := by omega
    subst hn
    cases g <;> simp [natBytesAux]
  | succ f ih =>
    intro g n hf hg
    cases g with
    | zero =>
      have hn : n = 0 := by omega
      subst hn
      simp [natBytesAux]
    | succ g =>
      simp only [natBytesAux]
      by_cases hn : n = 0
      · simp [hn]
      · have hdiv : n / 256 < n := Nat.div_lt_self (Nat.pos_of_ne_zero hn) (by decide)
        rw [if_neg hn, if_neg hn, ih g (n / 256) (by omega) (by omega)]

theorem natBytes_zero : natBytes 0 = [] := rfl

theorem natBytes_pos (n : Nat) (hn : n ≠ 0) :
    natBytes n = natBytes (n / 256) ++ [byte n] := by
  have hdiv : n / 256 < n := Nat.div_lt_self (Nat.pos_of_ne_zero hn) (by decide)
  obtain ⟨m, rfl⟩ : ∃ m, n = m + 1 := ⟨n - 1, by omega⟩
  show natBytesAux (m + 1) (m + 1) = natBytesAux ((m + 1) / 256) ((m + 1) / 256) ++ _
  simp only [natBytesAux]
  rw [if_neg hn, natBytesAux_fuel m ((m + 1) / 256) ((m + 1) / 256) (by omega) (le_refl _)]

theorem bigEndian_succ (k v : Nat) :
    bigEndian (k + 1) v = bigEndian k (v / 256) ++ [byte v] := by
  unfold bigEndian
  rw [List.range_succ, List.map_append]
  congr 1
  · apply List.map_congr_left
    intro i hi
    have hik : i < k := List.mem_range.mp hi
    have : k + 1 - 1 - i = (k - 1 - i) + 1 := by omega
    rw [this, pow_succ, Nat.div_div_eq_div_mul, Nat.mul_comm]
  · simp

theorem bigEndian_zero_val (k : Nat) : bigEndian k 0 = List.replicate k 0 := by
  induction k with
  | zero => rfl
  | succ k ih =>
    rw [bigEndian_succ, Nat.zero_div, ih, List.replicate_succ']
    rfl

theorem bigEndian_length (k v : Nat) : (bigEndian k v).length = k := by
  simp [bigEndian]

theorem natBytes_length_le : ∀ (k v : Nat), v < 256 ^ k → (natBytes v).length ≤ k := by
  intro k
  induction k with
  | zero =>
    intro v hv
    have : v = 0 := by simpa using hv
    subst this
    simp [natBytes_zero]
  | succ k ih =>
    intro v hv
    by_cases h0 : v = 0
    · subst h0; simp [natBytes_zero]
    · rw [natBytes_pos v h0]
      have : v / 256 < 256 ^ k := by
        rw [Nat.div_lt_iff_lt_mul (by decide)]
        rw [pow_succ] at hv
        exact hv
      have := ih _ this
      simp
      omega

theorem natBytes_length_gt : ∀ (k v : Nat), 256 ^ k ≤ v → k < (natBytes v).length := by
  intro k
  induction k with
  | zero =>
    intro v hv
    have h0 : v ≠ 0 := by
      intro h; subst h; simp at hv
    rw [natBytes_pos v h0]
    simp
  | succ k ih =>
    intro v hv
    have h0 : v ≠ 0 := by
      intro h; subst h
      have : 0 < 256 ^ (k + 1) := by positivity
      omega
    rw [natBytes_pos v h0]
    have : 256 ^ k ≤ v / 256 := by
      rw [Nat.le_div_iff_mul_le (by decide)]
      rw [pow_succ] at hv
      exact hv
    have := ih _ this
    simp
    omega

theorem natBytes_pad : ∀ (k v : Nat), v < 256 ^ k →
    List.replicate (k - (natBytes v).length) 0 ++ natBytes v = bigEndian k v := by
  intro k
  induction k with
  | zero =>
    intro v hv
    have : v = 0 := by simpa using hv
    subst this
    rfl
  | succ k ih =>
    intro v hv
    by_cases h0 : v = 0
    · subst h0
      rw [bigEndian_zero_val]
      simp [natBytes_zero]
    · have hlt : v / 256 < 256 ^ k := by
        rw [Nat.div_lt_iff_lt_mul (by decide)]
        rw [pow_succ] at hv
        exact hv
      rw [natBytes_pos v h0, bigEndian_succ, ← ih _ hlt, List.length_append,
        List.length_singleton, Nat.add_sub_add_right, List.append_assoc]

/-! ### The point buffers (C3, C4) -/

theorem copyInto_field (pre post src : List Byte) (w : Nat) (lo hi : Int)
    (hsrc : src.length ≤ w) (hhi : hi = (pre.length : Int) + w)
    (hlo : lo = hi - src.length) :
    copyInto (pre ++ List.replicate w 0 ++ post) lo hi src
      = some (pre ++ (List.replicate (w - src.length) 0 ++ src) ++ post) := by
  have hlo' : lo.toNat = pre.length + (w - src.length) := by omega
  have hn : min (hi - lo).toNat src.length = src.length := by
    have : (hi - lo).toNat = src.length := by omega
    rw [this, Nat.min_self]
  have hcond : 0 ≤ lo ∧ lo ≤ hi ∧
      hi ≤ ((pre ++ List.replicate w (0 : Byte) ++ post).length : Int) := by
    simp only [List.length_append, List.length_replicate]
    push_cast
    omega
  have hsplit : pre ++ List.replicate w (0 : Byte) ++ post
      = (pre ++ List.replicate (w - src.length) 0) ++ (List.replicate src.length 0 ++ post) := by
    have hw : List.replicate w (0 : Byte)
        = List.replicate (w - src.length) 0 ++ List.replicate src.length 0 := by
      rw [← List.replicate_add]
      congr 1
      omega
    rw [hw]
    simp only [List.append_assoc]
  have hlen1 : (pre ++ List.replicate (w - src.length) (0 : Byte)).length
      = pre.length + (w - src.length) := by simp
  unfold copyInto
  rw [if_pos hcond]
  simp only [hn, hlo', List.take_length]
  congr 1
  have htake : List.take (pre.length + (w - src.length))
      (pre ++ List.replicate w (0 : Byte) ++ post)
      = pre ++ List.replicate (w - src.length) 0 := by
    rw [hsplit]
    exact List.take_left' hlen1
  have hdrop : List.drop (pre.length + (w - src.length) + src.length)
      (pre ++ List.replicate w (0 : Byte) ++ post) = post := by
    have hlen2 : (pre ++ List.replicate w (0 : Byte)).length
        = pre.length + (w - src.length) + src.length := by
      simp; omega
    exact List.drop_left' hlen2
  rw [htake, hdrop]
  simp [List.append_assoc]

theorem bigBytes_natCast (v : Nat) : bigBytes (v : Int) = natBytes v := by
  simp [bigBytes]

/-- The zero-padded field a coordinate below `2 ^ 256` leaves in the buffer. -/
theorem natBytes_pad32 (v : Nat) (hv : v < 2 ^ 256) :
    (natBytes v).length ≤ 32 ∧
      List.replicate (32 - (natBytes v).length) 0 ++ natBytes v = be32 v := by
  have hv' : v < 256 ^ 32 := by
    have : (256 : Nat) ^ 32 = 2 ^ 256 := by norm_num
    omega
  exact ⟨natBytes_length_le 32 v hv', natBytes_pad 32 v hv'⟩

theorem be32_length (v : Nat) : (be32 v).length = 32 := bigEndian_length 32 v

theorem parseG1PointBuffer_values (s : Strings2) (x y : Nat)
    (hx : parseBigInt s.1 = some (x : Int)) (hy : parseBigInt s.2 = some (y : Int))
    (hxlt : x < 2 ^ 256) (hylt : y < 2 ^ 256) :
    parseG1PointBuffer s = some (be32 x ++ be32 y) := by
  obtain ⟨hxl, hxp⟩ := natBytes_pad32 x hxlt
  obtain ⟨hyl, hyp⟩ := natBytes_pad32 y hylt
  have h1 : copyInto (List.replicate (32 * 2) (0 : Byte))
      (1 * 32 - ((natBytes x).length : Int)) (1 * 32) (natBytes x)
      = some (be32 x ++ List.replicate 32 0) := by
    have h := copyInto_field [] (List.replicate 32 0) (natBytes x) 32
      (1 * 32 - ((natBytes x).length : Int)) (1 * 32) hxl (by simp) rfl
    rw [hxp] at h
    simpa [← List.replicate_add] using h
  have h2 : copyInto (be32 x ++ List.replicate 32 0)
      (2 * 32 - ((natBytes y).length : Int)) (2 * 32) (natBytes y)
      = some (be32 x ++ be32 y) := by
    have h := copyInto_field (be32 x) [] (natBytes y) 32
      (2 * 32 - ((natBytes y).length : Int)) (2 * 32) hyl
      (by rw [be32_length]; norm_num) rfl
    rw [hyp] at h
    simpa using h
  have hbuf : parseG1PointBuffer s = some (be32 x ++ be32 y) := by
    simp only [parseG1PointBuffer, hx, hy, bigBytes_natCast, Option.bind_eq_bind,
      Option.some_bind, h1, h2, Option.pure_def]
  exact hbuf

/-- C4: for coordinates `x, y < 2 ^ 256` given as the tokens `s[0]`, `s[1]`,
the buffer `parseG1Point` hands to `Unmarshal` is 64 bytes long and equals
`be32 x ++ be32 y`. -/
theorem parseG1Point_buffer (lib : CurveLib) (s : Strings2) (x y : Nat)
    (hx : parseBigInt s.1 = some (x : Int)) (hy : parseBigInt s.2 = some (y : Int))
    (hxlt : x < 2 ^ 256) (hylt : y < 2 ^ 256) :
    parseG1PointBuffer s = some (be32 x ++ be32 y) ∧
      (be32 x ++ be32 y).length = 64 ∧
      parseG1Point lib s = lib.unmarshalG1 (be32 x ++ be32 y) := by
  have hbuf := parseG1PointBuffer_values s x y hx hy hxlt hylt
  refine ⟨hbuf, ?_, ?_⟩
  · simp [be32_length]
  · simp [parseG1Point, hbuf]

/-- C4 at `s = ["0x1", "0x2"]`, the generator of G1. -/
theorem parseG1Point_buffer_witness :
    parseG1PointBuffer ("0x1".toList, "0x2".toList) = some (be32 1 ++ be32 2) ∧
      (be32 1 ++ be32 2).length = 64 ∧
      parseG1Point intLib ("0x1".toList, "0x2".toList)
        = intLib.unmarshalG1 (be32 1 ++ be32 2) :=
  parseG1Point_buffer intLib ("0x1".toList, "0x2".toList) 1 2 (by decide) (by decide)
    (by norm_num) (by norm_num)

theorem parseG2PointBuffer_values (s : Strings2x2) (xIm xRe yIm yRe : Nat)
    (h00 : parseBigInt s.1.1 = some (xIm : Int)) (h01 : parseBigInt s.1.2 = some (xRe : Int))
    (h10 : parseBigInt s.2.1 = some (yIm : Int)) (h11 : parseBigInt s.2.2 = some (yRe : Int))
    (hxIm : xIm < 2 ^ 256) (hxRe : xRe < 2 ^ 256) (hyIm : yIm < 2 ^ 256)
    (hyRe : yRe < 2 ^ 256) :
    parseG2PointBuffer s = some (be32 xIm ++ be32 xRe ++ be32 yIm ++ be32 yRe) := by
  obtain ⟨l1, p1⟩ := natBytes_pad32 xIm hxIm
  obtain ⟨l2, p2⟩ := natBytes_pad32 xRe hxRe
  obtain ⟨l3, p3⟩ := natBytes_pad32 yIm hyIm
  obtain ⟨l4, p4⟩ := natBytes_pad32 yRe hyRe
  have h1 : copyInto (List.replicate (32 * 4) (0 : Byte))
      (1 * 32 - ((natBytes xIm).length : Int)) (1 * 32) (natBytes xIm)
      = some (be32 xIm ++ List.replicate 32 0 ++ List.replicate 64 0) := by
    have h := copyInto_field [] (List.replicate 96 0) (natBytes xIm) 32
      (1 * 32 - ((natBytes xIm).length : Int)) (1 * 32) l1 (by simp) rfl
    rw [p1] at h
    simpa [← List.replicate_add] using h
  have h2 : copyInto (be32 xIm ++ List.replicate 32 0 ++ List.replicate 64 0)
      (2 * 32 - ((natBytes xRe).length : Int)) (2 * 32) (natBytes xRe)
      = some (be32 xIm ++ be32 xRe ++ List.replicate 32 0 ++ List.replicate 32 0) := by
    have h := copyInto_field (be32 xIm) (List.replicate 64 0) (natBytes xRe) 32
      (2 * 32 - ((natBytes xRe).length : Int)) (2 * 32) l2
      (by rw [be32_length]; norm_num) rfl
    rw [p2] at h
    simpa [← List.replicate_add] using h
  have h3 : copyInto (be32 xIm ++ be32 xRe ++ List.replicate 32 0 ++ List.replicate 32 0)
      (3 * 32 - ((natBytes yIm).length : Int)) (3 * 32) (natBytes yIm)
      = some (be32 xIm ++ be32 xRe ++ be32 yIm ++ List.replicate 32 0) := by
    have h := copyInto_field (be32 xIm ++ be32 xRe) (List.replicate 32 0) (natBytes yIm) 32
      (3 * 32 - ((natBytes yIm).length : Int)) (3 * 32) l3
      (by rw [List.length_append, be32_length, be32_length]; norm_num) rfl
    rw [p3] at h
    simpa using h
  have h4 : copyInto (be32 xIm ++ be32 xRe ++ be32 yIm ++ List.replicate 32 0)
      (4 * 32 - ((natBytes yRe).length : Int)) (4 * 32) (natBytes yRe)
      = some (be32 xIm ++ be32 xRe ++ be32 yIm ++ be32 yRe) := by
    have h := copyInto_field (be32 xIm ++ be32 xRe ++ be32 yIm) [] (natBytes yRe) 32
      (4 * 32 - ((natBytes yRe).length : Int)) (4 * 32) l4
      (by simp only [List.length_append, be32_length]; norm_num) rfl
    rw [p4] at h
    simpa using h
  have hbuf : parseG2PointBuffer s
      = some (be32 xIm ++ be32 xRe ++ be32 yIm ++ be32 yRe) := by
    simp only [parseG2PointBuffer, h00, h01, h10, h11, bigBytes_natCast, Option.bind_eq_bind,
      Option.some_bind, h1, h2, h3, h4, Option.pure_def]
  exact hbuf

/-- C3: for coordinates below `2 ^ 256` given as the tokens `s[0][0]`,
`s[0][1]`, `s[1][0]`, `s[1][1]`, the buffer `parseG2Point` hands to
`Unmarshal` is 128 bytes long and equals
`be32 xIm ++ be32 xRe ++ be32 yIm ++ be32 yRe`. -/
theorem parseG2Point_buffer (lib : CurveLib) (s : Strings2x2) (xIm xRe yIm yRe : Nat)
    (h00 : parseBigInt s.1.1 = some (xIm : Int)) (h01 : parseBigInt s.1.2 = some (xRe : Int))
    (h10 : parseBigInt s.2.1 = some (yIm : Int)) (h11 : parseBigInt s.2.2 = some (yRe : Int))
    (hxIm : xIm < 2 ^ 256) (hxRe : xRe < 2 ^ 256) (hyIm : yIm < 2 ^ 256)
    (hyRe : yRe < 2 ^ 256) :
    parseG2PointBuffer s = some (be32 xIm ++ be32 xRe ++ be32 yIm ++ be32 yRe) ∧
      (be32 xIm ++ be32 xRe ++ be32 yIm ++ be32 yRe).length = 128 ∧
      parseG2Point lib s = lib.unmarshalG2 (be32 xIm ++ be32 xRe ++ be32 yIm ++ be32 yRe) := by
  have hbuf :=
    parseG2PointBuffer_values s xIm xRe yIm yRe h00 h01 h10 h11 hxIm hxRe hyIm hyRe
  refine ⟨hbuf, ?_, ?_⟩
  · simp [be32_length]
  · simp [parseG2Point, hbuf]

/-- C3 at `s = [["0x1", "0x2"], ["0x3", "0x4"]]`. -/
theorem parseG2Point_buffer_witness :
    parseG2PointBuffer (("0x1".toList, "0x2".toList), ("0x3".toList, "0x4".toList))
        = some (be32 1 ++ be32 2 ++ be32 3 ++ be32 4) ∧
      (be32 1 ++ be32 2 ++ be32 3 ++ be32 4).length = 128 ∧
      parseG2Point intLib (("0x1".toList, "0x2".toList), ("0x3".toList, "0x4".toList))
        = intLib.unmarshalG2 (be32 1 ++ be32 2 ++ be32 3 ++ be32 4) :=
  parseG2Point_buffer intLib (("0x1".toList, "0x2".toList), ("0x3".toList, "0x4".toList))
    1 2 3 4 (by decide) (by decide) (by decide) (by decide)
    (by norm_num) (by norm_num) (by norm_num) (by norm_num)

/-! ### Scanning digits -/

theorem radixValue_cons (b : Nat) (c : Char) (ds : GoString) :
    radixValue b (c :: ds) = (specDigit c).getD 0 * b ^ ds.length + radixValue b ds := rfl

theorem digitVal_of_specDigit (c : Char) (d : Nat) (h : specDigit c = some d) :
    digitVal c = d := by
  unfold specDigit at h
  unfold digitVal
  split_ifs at h with h1 h2 h3
  · rw [if_pos h1]; exact Option.some.inj h
  · rw [if_neg h1, if_pos (by omega)]
    have := Option.some.inj h
    omega
  · rw [if_neg h1, if_neg (by omega), if_pos (by omega)]
    have := Option.some.inj h
    omega

theorem isDigitOf_iff (b : Nat) (hb : b ≤ 16) (c : Char) :
    IsDigitOf b c ↔ digitVal c < b := by
  constructor
  · rintro ⟨d, hd, hlt⟩
    rw [digitVal_of_specDigit c d hd]
    exact hlt
  · intro h
    unfold digitVal at h
    unfold IsDigitOf specDigit
    split_ifs at h with h1 h2 h3
    · exact ⟨c.toNat - 48, by rw [if_pos h1], h⟩
    · have h4 : 97 ≤ c.toNat ∧ c.toNat ≤ 102 := by omega
      exact ⟨c.toNat - 87, by rw [if_neg h1, if_pos h4], by omega⟩
    · have h4 : 65 ≤ c.toNat ∧ c.toNat ≤ 70 := by omega
      have h5 : ¬ (97 ≤ c.toNat ∧ c.toNat ≤ 102) := by omega
      exact ⟨c.toNat - 55, by rw [if_neg h1, if_neg h5, if_pos h4], by omega⟩
    · omega

theorem scanDigits_all (b : Nat) : ∀ (ds : GoString) (z count : Nat),
    (∀ c ∈ ds, digitVal c < b) →
    scanDigits b ds z count
      = (z * b ^ ds.length + ds.foldl (fun a c => a * b + digitVal c) 0,
          count + ds.length, []) := by
  intro ds
  induction ds using List.reverseRecOn with
  | nil => intro z count _; simp [scanDigits]
  | append_singleton ds c ih =>
    intro z count h
    have hds : ∀ c ∈ ds, digitVal c < b := fun x hx => h x (by simp [hx])
    have hc : digitVal c < b := h c (by simp)
    have key : ∀ (l : GoString) (z count : Nat), (∀ x ∈ l, digitVal x < b) →
        scanDigits b (l ++ [c]) z count
          = scanDigits b [c] (scanDigits b l z count).1 (scanDigits b l z count).2.1 := by
      intro l
      induction l with
      | nil => intro z count _; simp [scanDigits]
      | cons x l ihl =>
        intro z count hl
        have hx : ¬ digitVal x ≥ b := by
          have := hl x (by simp)
          omega
        simp only [List.cons_append, scanDigits, if_neg hx]
        exact ihl _ _ (fun y hy => hl y (by simp [hy]))
    rw [key ds z count hds, ih z count hds]
    simp only [scanDigits, if_neg (show ¬ digitVal c ≥ b by omega), List.foldl_append,
      List.foldl_cons, List.foldl_nil, List.length_append, List.length_singleton]
    refine Prod.ext ?_ (Prod.ext ?_ rfl)
    · simp only [pow_succ]; ring
    · simp only; omega

theorem foldl_eq_radixValue (b : Nat) : ∀ (ds : GoString),
    (∀ c ∈ ds, IsDigitOf b c) →
    ds.foldl (fun a c => a * b + digitVal c) 0 = radixValue b ds := by
  intro ds
  induction ds using List.reverseRecOn with
  | nil => intro _; rfl
  | append_singleton ds c ih =>
    intro h
    have hds : ∀ c ∈ ds, IsDigitOf b c := fun x hx => h x (by simp [hx])
    obtain ⟨d, hd, _⟩ := h c (by simp)
    have happ : ∀ (l : GoString), radixValue b (l ++ [c]) = radixValue b l * b + d := by
      intro l
      induction l with
      | nil => simp [radixValue, hd]
      | cons x l ihl =>
        rw [List.cons_append, radixValue_cons, radixValue_cons, ihl, List.length_append,
          List.length_singleton, pow_succ]
        ring
    rw [List.foldl_append, ih hds, happ, List.foldl_cons, List.foldl_nil,
      digitVal_of_specDigit c d hd]

theorem scanDigits_unread (b : Nat) : ∀ (ds : GoString) (z count : Nat),
    (∃ c ∈ ds, b ≤ digitVal c) → (scanDigits b ds z count).2.2 ≠ [] := by
  intro ds
  induction ds with
  | nil => intro z count h; simp at h
  | cons x l ih =>
    intro z count h
    by_cases hx : digitVal x ≥ b
    · simp [scanDigits, hx]
    · simp only [scanDigits, if_neg hx]
      apply ih
      obtain ⟨c, hc, hcb⟩ := h
      rcases List.mem_cons.mp hc with rfl | hc
      · exact absurd hcb hx
      · exact ⟨c, hc, hcb⟩

theorem scanDigits_count_zero (b : Nat) (z : Nat) :
    (scanDigits b [] z 0).2.1 = 0 := rfl

theorem setString_body (s : GoString) (b : Nat) :
    setString s b =
      if s = [] then none
      else if (scanDigits b (dropSign s) 0 0).2.1 = 0 then none
      else if (scanDigits b (dropSign s) 0 0).2.2 ≠ [] then none
      else some (if s.head? = some '-' then -((scanDigits b (dropSign s) 0 0).1 : Int)
        else ((scanDigits b (dropSign s) 0 0).1 : Int)) := by
  cases s with
  | nil => rfl
  | cons ch rest =>
    by_cases hm : ch = '-'
    · subst hm
      simp [setString, dropSign]
    · by_cases hp : ch = '+'
      · subst hp
        simp [setString, dropSign]
      · simp [setString, dropSign, hm, hp]
theorem setString_digits (b : Nat) (hb : b ≤ 16) (ds : GoString) (hne : ds ≠ [])
    (h : ∀ c ∈ ds, IsDigitOf b c) :
    setString ds b = some ((radixValue b ds : Nat) : Int) := by
  have hv : ∀ c ∈ ds, digitVal c < b := fun c hc => (isDigitOf_iff b hb c).mp (h c hc)
  cases ds with
  | nil => exact absurd rfl hne
  | cons ch rest =>
    have hch : digitVal ch < 16 := lt_of_lt_of_le (hv ch (by simp)) hb
    have hm : ch ≠ '-' := by
      rintro rfl
      revert hch
      decide
    have hp : ch ≠ '+' := by
      rintro rfl
      revert hch
      decide
    have hds : dropSign (ch :: rest) = ch :: rest := by simp [dropSign, hm, hp]
    rw [setString_body, hds, scanDigits_all b (ch :: rest) 0 0 hv,
      foldl_eq_radixValue b (ch :: rest) h]
    simp [hm]

/-! ### `parseBigInt` (C6 to C9) -/

theorem splitRadix_hex (ds : GoString) :
    splitRadix ('0' :: 'x' :: ds) = (ds, 16) ∧ splitRadix ('0' :: 'X' :: ds) = (ds, 16) := by
  constructor <;> simp [splitRadix, hasPrefix]

theorem splitRadix_octal (c : Char) (r : GoString) (hx : c ≠ 'x') (hX : c ≠ 'X') :
    splitRadix ('0' :: c :: r) = (c :: r, 8) := by
  simp [splitRadix, hasPrefix, hx, hX]

theorem splitRadix_binary (ds : GoString) :
    splitRadix ('b' :: ds) = (ds, 2) ∧ splitRadix ('B' :: ds) = (ds, 2) := by
  constructor <;> simp [splitRadix, hasPrefix]

theorem splitRadix_decimal (c : Char) (r : GoString) (h0 : c ≠ '0') (hb : c ≠ 'b')
    (hB : c ≠ 'B') : splitRadix (c :: r) = (c :: r, 10) := by
  simp [splitRadix, hasPrefix, h0, hb, hB]

theorem digit_ne_of_digitVal (b : Nat) (c x : Char) (hc : digitVal c < b)
    (hx : b ≤ digitVal x) : c ≠ x := by
  rintro rfl
  omega

/-- The tokens on which `parseBigInt` gives the value the radix dispatch
promises: a non-empty string of digits valid in the radix after `0x` or `0X`
(base 16), after a leading `0` (base 8), after `b` or `B` (base 2), or with no
prefix and not starting with `0` (base 10); with the four examples of the
specification.  The one token of the dispatch left out is the bare `0`. -/
theorem parseBigInt_radix (ds : GoString) (hne : ds ≠ []) :
    ((∀ c ∈ ds, IsDigitOf 16 c) →
      parseBigInt ('0' :: 'x' :: ds) = some ((radixValue 16 ds : Nat) : Int) ∧
      parseBigInt ('0' :: 'X' :: ds) = some ((radixValue 16 ds : Nat) : Int)) ∧
    ((∀ c ∈ ds, IsDigitOf 8 c) →
      parseBigInt ('0' :: ds) = some ((radixValue 8 ds : Nat) : Int)) ∧
    ((∀ c ∈ ds, IsDigitOf 2 c) →
      parseBigInt ('b' :: ds) = some ((radixValue 2 ds : Nat) : Int) ∧
      parseBigInt ('B' :: ds) = some ((radixValue 2 ds : Nat) : Int)) ∧
    ((∀ c ∈ ds, IsDigitOf 10 c) → ds.head? ≠ some '0' →
      parseBigInt ds = some ((radixValue 10 ds : Nat) : Int)) ∧
    parseBigInt "0x10".toList = some 16 ∧ parseBigInt "020".toList = some 16 ∧
    parseBigInt "b101".toList = some 5 ∧ parseBigInt "42".toList = some 42 := by
  refine ⟨?_, ?_, ?_, ?_, by decide, by decide, by decide, by decide⟩
  · intro h
    unfold parseBigInt
    rw [(splitRadix_hex ds).1, (splitRadix_hex ds).2]
    exact ⟨setString_digits 16 (le_refl _) ds hne h, setString_digits 16 (le_refl _) ds hne h⟩
  · intro h
    cases ds with
    | nil => exact absurd rfl hne
    | cons c r =>
      have hc : digitVal c < 8 := (isDigitOf_iff 8 (by decide) c).mp (h c (by simp))
      unfold parseBigInt
      rw [splitRadix_octal c r (digit_ne_of_digitVal 8 c 'x' hc (by decide))
        (digit_ne_of_digitVal 8 c 'X' hc (by decide))]
      exact setString_digits 8 (by decide) (c :: r) hne h
  · intro h
    unfold parseBigInt
    rw [(splitRadix_binary ds).1, (splitRadix_binary ds).2]
    exact ⟨setString_digits 2 (by decide) ds hne h, setString_digits 2 (by decide) ds hne h⟩
  · intro h h0
    cases ds with
    | nil => exact absurd rfl hne
    | cons c r =>
      have hc : digitVal c < 10 := (isDigitOf_iff 10 (by decide) c).mp (h c (by simp))
      have hc0 : c ≠ '0' := by
        intro hc0
        exact h0 (by simp [hc0])
      unfold parseBigInt
      rw [splitRadix_decimal c r hc0 (digit_ne_of_digitVal 10 c 'b' hc (by decide))
        (digit_ne_of_digitVal 10 c 'B' hc (by decide))]
      exact setString_digits 10 (by decide) (c :: r) hne h

/-- The digit string `17` under each prefix: `0x17` is 23, `0X17` is 23, `017`
is 15 and `17` is 17. -/
theorem parseBigInt_radix_witness :
    "17".toList ≠ [] ∧
      parseBigInt "0x17".toList = some ((radixValue 16 "17".toList : Nat) : Int) ∧
      parseBigInt "017".toList = some ((radixValue 8 "17".toList : Nat) : Int) ∧
      parseBigInt "17".toList = some ((radixValue 10 "17".toList : Nat) : Int) ∧
      radixValue 16 "17".toList = 23 ∧ radixValue 8 "17".toList = 15 ∧
      radixValue 10 "17".toList = 17 :=
  let h := parseBigInt_radix "17".toList (by decide)
  ⟨by decide, (h.1 (by decide)).1, h.2.1 (by decide), h.2.2.2.1 (by decide) (by decide),
    by decide, by decide, by decide⟩

/-- C6 on the code: the token `0` is a non-empty string of valid decimal
digits of value 0 with no radix prefix (it does not start with `0x`, `0X`,
`b` or `B`, and no further digit follows its leading `0`), so the dispatch of
the claim makes it base 10 with value 0; `parseBigInt` takes it into the
octal branch, hands `SetString` the empty string in base 8 and fails. -/
theorem parseBigInt_decimal_zero :
    hasPrefix "0".toList "0x".toList = false ∧ hasPrefix "0".toList "0X".toList = false ∧
      "0".toList.drop 1 = [] ∧
      hasPrefix "0".toList "b".toList = false ∧ hasPrefix "0".toList "B".toList = false ∧
      "0".toList ≠ [] ∧ (∀ c ∈ "0".toList, IsDigitOf 10 c) ∧
      radixValue 10 "0".toList = 0 ∧
      splitRadix "0".toList = ([], 8) ∧ setString [] 8 = none ∧
      parseBigInt "0".toList = none := by
  decide

/-- C9: every token other than the bare `0` whose remainder after prefix
removal is empty is rejected; these tokens are the empty string, `0x`, `0X`,
`b` and `B`. -/
theorem parseBigInt_empty_remainder (s : GoString) (hrem : (splitRadix s).1 = [])
    (h0 : s ≠ "0".toList) :
    parseBigInt s = none ∧
      (s = "".toList ∨ s = "0x".toList ∨ s = "0X".toList ∨ s = "b".toList ∨
        s = "B".toList) := by
  constructor
  · unfold parseBigInt
    rw [hrem]
    rfl
  · unfold splitRadix at hrem
    split_ifs at hrem with h1 h2 h3
    · rcases s with _ | ⟨c, _ | ⟨d, _ | ⟨e, t⟩⟩⟩
      · simp [hasPrefix] at h1
      · simp [hasPrefix] at h1
      · simp [hasPrefix] at h1
        rcases h1 with ⟨rfl, rfl⟩ | ⟨rfl, rfl⟩ <;> simp
      · simp at hrem
    · rcases s with _ | ⟨c, _ | ⟨d, t⟩⟩
      · simp [hasPrefix] at h2
      · simp [hasPrefix] at h2
        subst h2
        exact absurd rfl h0
      · simp at hrem
    · rcases s with _ | ⟨c, _ | ⟨d, t⟩⟩
      · simp [hasPrefix] at h3
      · simp [hasPrefix] at h3
        rcases h3 with rfl | rfl <;> simp
      · simp at hrem
    · simp at hrem
      simp [hrem]

/-- C9 at the five tokens: the empty string, `0x`, `0X`, `b` and `B` are all
rejected. -/
theorem parseBigInt_empty_remainder_witness :
    parseBigInt "".toList = none ∧ parseBigInt "0x".toList = none ∧
      parseBigInt "0X".toList = none ∧ parseBigInt "b".toList = none ∧
      parseBigInt "B".toList = none :=
  ⟨(parseBigInt_empty_remainder "".toList (by decide) (by decide)).1,
    (parseBigInt_empty_remainder "0x".toList (by decide) (by decide)).1,
    (parseBigInt_empty_remainder "0X".toList (by decide) (by decide)).1,
    (parseBigInt_empty_remainder "b".toList (by decide) (by decide)).1,
    (parseBigInt_empty_remainder "B".toList (by decide) (by decide)).1⟩

theorem splitRadix_base (s : GoString) :
    (splitRadix s).2 = 16 ∨ (splitRadix s).2 = 8 ∨ (splitRadix s).2 = 2 ∨
      (splitRadix s).2 = 10 := by
  unfold splitRadix
  split_ifs <;> simp

theorem splitRadix_base_le (s : GoString) : (splitRadix s).2 ≤ 16 := by
  rcases splitRadix_base s with h | h | h | h <;> omega

theorem setString_signed (b : Nat) (hb : b ≤ 16) (ds : GoString) (hne : ds ≠ [])
    (h : ∀ c ∈ ds, IsDigitOf b c) :
    setString ('-' :: ds) b = some (-((radixValue b ds : Nat) : Int)) ∧
      setString ('+' :: ds) b = some ((radixValue b ds : Nat) : Int) := by
  have hv : ∀ c ∈ ds, digitVal c < b := fun c hc => (isDigitOf_iff b hb c).mp (h c hc)
  have hlen : ds.length ≠ 0 := by
    intro h0
    exact hne (List.length_eq_zero.mp h0)
  constructor
  · rw [setString_body]
    simp [dropSign, scanDigits_all b ds 0 0 hv, foldl_eq_radixValue b ds h, hlen]
  · rw [setString_body]
    simp [dropSign, scanDigits_all b ds 0 0 hv, foldl_eq_radixValue b ds h, hlen]

theorem setString_neg_head (s : GoString) (b : Nat) (v : Int) (h : setString s b = some v)
    (hv : v < 0) : s.head? = some '-' := by
  rw [setString_body] at h
  split_ifs at h with h1 h2 h3 h4
  · exact h4
  · have := Option.some.inj h
    omega

/-- C7, as the code has it: a token is rejected when its remainder after
prefix removal, one leading `-` or `+` set aside, is empty or holds a
character that is not a digit of the selected radix; a sign in front of valid
digits is accepted and applied, and a returned value is negative only when
the remainder starts with `-`. -/
theorem parseBigInt_sign (s : GoString) :
    ((∃ c ∈ dropSign (splitRadix s).1, ¬ IsDigitOf (splitRadix s).2 c) →
      parseBigInt s = none) ∧
    (dropSign (splitRadix s).1 = [] → parseBigInt s = none) ∧
    (∀ ds, ds ≠ [] → (∀ c ∈ ds, IsDigitOf (splitRadix s).2 c) →
      ((splitRadix s).1 = '-' :: ds →
        parseBigInt s = some (-((radixValue (splitRadix s).2 ds : Nat) : Int))) ∧
      ((splitRadix s).1 = '+' :: ds →
        parseBigInt s = some ((radixValue (splitRadix s).2 ds : Nat) : Int))) ∧
    (∀ v, parseBigInt s = some v → v < 0 → (splitRadix s).1.head? = some '-') := by
  refine ⟨?_, ?_, ?_, ?_⟩
  · rintro ⟨c, hc, hnd⟩
    have hge : (splitRadix s).2 ≤ digitVal c := by
      rw [isDigitOf_iff _ (splitRadix_base_le s)] at hnd
      omega
    unfold parseBigInt
    rw [setString_body]
    have := scanDigits_unread (splitRadix s).2 (dropSign (splitRadix s).1) 0 0 ⟨c, hc, hge⟩
    simp [this]
  · intro h
    unfold parseBigInt
    rw [setString_body, h]
    simp [scanDigits]
  · intro ds hne hds
    have := setString_signed (splitRadix s).2 (splitRadix_base_le s) ds hne hds
    constructor
    · intro hs
      unfold parseBigInt
      rw [hs]
      exact this.1
    · intro hs
      unfold parseBigInt
      rw [hs]
      exact this.2
  · intro v hv hneg
    exact setString_neg_head _ _ v hv hneg

/-- C7 fails as stated: the tokens `-5` and `0x-5` are accepted, with the
negative value `-5`. -/
theorem parseBigInt_accepts_sign :
    parseBigInt "-5".toList = some (-5) ∧ parseBigInt "0x-5".toList = some (-5) ∧
      parseBigInt "+5".toList = some 5 ∧ ((-5 : Int) < 0) := by
  decide

/-- C8 on the code: the bare token `0` is rejected (the octal branch strips
it and `SetString` gets the empty string), while `00` and `0x0` give zero. -/
theorem parseBigInt_bare_zero :
    parseBigInt "0".toList = none ∧ splitRadix "0".toList = ([], 8) ∧
      parseBigInt "00".toList = some 0 ∧ parseBigInt "0x0".toList = some 0 := by
  decide

/-! ### Coordinates wider than 32 bytes (C5) -/

theorem parseG1PointBuffer_wide_x (s : Strings2) (x : Int) (hx : parseBigInt s.1 = some x)
    (hwide : 2 ^ 256 ≤ x.natAbs) : parseG1PointBuffer s = none := by
  have hlen : 32 < (bigBytes x).length := by
    unfold bigBytes
    apply natBytes_length_gt
    have : (256 : Nat) ^ 32 = 2 ^ 256 := by norm_num
    omega
  have hcopy : ∀ b : List Byte,
      copyInto b (1 * 32 - ((bigBytes x).length : Int)) (1 * 32) (bigBytes x) = none := by
    intro b
    unfold copyInto
    rw [if_neg]
    omega
  unfold parseG1PointBuffer
  rw [hx]
  cases hy : parseBigInt s.2 with
  | none => rfl
  | some y =>
    simp only [Option.bind_eq_bind, Option.some_bind, hcopy, Option.none_bind]

set_option maxRecDepth 100000 in
/-- C5 on the code: with `y = 2 ^ 256` (33 bytes) the encoding step does not
fail; the top byte of `y` lands on the last byte of the `x` field, so for
`x = 2` the buffer handed to `Unmarshal` is the encoding of `(1, 0)`. -/
theorem parseG1PointBuffer_wide_y :
    parseBigInt ("0x1" ++ String.mk (List.replicate 64 '0')).toList = some (2 ^ 256) ∧
      parseG1PointBuffer ("0x2".toList, ("0x1" ++ String.mk (List.replicate 64 '0')).toList)
        = some (be32 1 ++ be32 0) := by
  decide

/-! ### Rendering (C10) -/

theorem hextable_getD_lower : ∀ n : Fin 16, IsLowerHexDigit (hextable.getD n.val '0') := by
  decide

theorem hextable_getD_zero : ∀ n : Fin 16, hextable.getD n.val '0' = '0' → n.val = 0 := by
  decide

theorem hexEncodeToString_lower : ∀ (src : List Byte),
    ∀ c ∈ hexEncodeToString src, IsLowerHexDigit c := by
  intro src
  induction src with
  | nil => intro c hc; simp [hexEncodeToString] at hc
  | cons v src ih =>
    intro c hc
    simp only [hexEncodeToString, List.mem_cons] at hc
    rcases hc with rfl | rfl | hc
    · exact hextable_getD_lower ⟨v.val / 16, by omega⟩
    · exact hextable_getD_lower ⟨v.val % 16, by omega⟩
    · exact ih c hc

theorem hexEncodeToString_length (src : List Byte) :
    (hexEncodeToString src).length = 2 * src.length := by
  induction src with
  | nil => rfl
  | cons v src ih => simp only [hexEncodeToString, List.length_cons, ih]; omega

theorem natBytes_head_ne_zero : ∀ (n : Nat), (natBytes n).head? ≠ some 0 := by
  intro n
  induction n using Nat.strong_induction_on with
  | _ n ih =>
    by_cases h0 : n = 0
    · subst h0; simp [natBytes_zero]
    · rw [natBytes_pos n h0]
      by_cases hq : n / 256 = 0
      · rw [hq, natBytes_zero, List.nil_append, List.head?_cons]
        intro h
        have hb : (byte n).val = 0 := by rw [Option.some.inj h]; rfl
        simp only [byte] at hb
        omega
      · have hlt : n / 256 < n := Nat.div_lt_self (Nat.pos_of_ne_zero h0) (by decide)
        have hne : natBytes (n / 256) ≠ [] := by
          rw [natBytes_pos _ hq]
          simp
        rw [List.head?_append_of_ne_nil _ hne]
        exact ih _ hlt

theorem hexEncodeToString_take (src : List Byte) (h : src.head? ≠ some 0) :
    (hexEncodeToString src).take 2 ≠ ['0', '0'] := by
  cases src with
  | nil => simp [hexEncodeToString]
  | cons v src =>
    simp only [hexEncodeToString, List.take_succ_cons, List.take_zero]
    intro hh
    have h1 : hextable.getD (v.val / 16) '0' = '0' := by
      have := List.cons.inj hh
      exact this.1
    have h2 : hextable.getD (v.val % 16) '0' = '0' := by
      have := List.cons.inj (List.cons.inj hh).2
      exact this.1
    have e1 := hextable_getD_zero ⟨v.val / 16, by omega⟩ h1
    have e2 := hextable_getD_zero ⟨v.val % 16, by omega⟩ h2
    simp only at e1 e2
    apply h
    have hv : v = 0 := Fin.ext (by simp only [Fin.val_zero]; omega)
    rw [hv]
    rfl

theorem hexField_isByteHex (field : List Byte) : IsByteHex (hexField field) := by
  refine ⟨hexEncodeToString (bigBytes (setBytes field)), rfl, hexEncodeToString_lower _, ?_, ?_⟩
  · rw [hexEncodeToString_length]; omega
  · apply hexEncodeToString_take
    unfold bigBytes
    exact natBytes_head_ne_zero _

/-- C10, as the code has it: every coordinate string `hexG1Point` and
`hexG2Point` return is `0x` followed by lowercase hexadecimal digits, two per
byte of the field without its leading zero bytes, so the first two digits are
never both `0` (one leading `0` digit remains when the top byte is below
`0x10`). -/
theorem hexPoint_isByteHex (m : List Byte) :
    IsByteHex (hexG1Point m).1 ∧ IsByteHex (hexG1Point m).2 ∧
      IsByteHex (hexG2Point m).1.1 ∧ IsByteHex (hexG2Point m).1.2 ∧
      IsByteHex (hexG2Point m).2.1 ∧ IsByteHex (hexG2Point m).2.2 :=
  ⟨hexField_isByteHex _, hexField_isByteHex _, hexField_isByteHex _, hexField_isByteHex _,
    hexField_isByteHex _, hexField_isByteHex _⟩

/-- C10 fails as stated: the G1 generator `(1, 2)` marshals to
`be32 1 ++ be32 2` and is rendered `("0x01", "0x02")`, whose first digit after
`0x` is `0`. -/
theorem hexG1Point_leading_zero_digit :
    hexG1Point (be32 1 ++ be32 2) = ("0x01".toList, "0x02".toList) ∧
      ((hexG1Point (be32 1 ++ be32 2)).1.drop 2).head? = some '0' := by
  decide

/-! ### The blinded pair and the Groth16 check (C1) -/

theorem intLib_groupLaw : GroupLaw intLib where
  addG1 := fun _ _ => rfl
  addG2 := fun _ _ => rfl
  scalarMultG1 := fun p k => by
    show k * p = k • p
    rw [smul_eq_mul]
  scalarMultG2 := fun p k => by
    show k * p = k • p
    rw [smul_eq_mul]

/-- C1 on the code: with the pairing `e(a, b) = g ^ (a * b)` on the integers,
the proof `A = 1, B = 1, C = 0` passes the check for `Delta = 2` and
`K = g`, and the pair `(B', C') = (Delta + 2 * B, C + 2 * A) = (4, 2)` that
lines 175-176 compute for `eta = 2` does not: `e(A, B') = g ^ 4` while
`K * e(C', Delta) = g ^ 5`. -/
theorem blind_breaks_groth16Check :
    Groth16Check intPairing (Multiplicative.ofAdd 1) 1 1 0 2 ∧
      blindB intLib 2 1 2 = (4 : Int) ∧ blindC intLib 0 1 2 = (2 : Int) ∧
      ¬ Groth16Check intPairing (Multiplicative.ofAdd 1) 1
          (blindB intLib 2 1 2) (blindC intLib 0 1 2) 2 := by
  refine ⟨?_, rfl, rfl, ?_⟩
  · show Multiplicative.ofAdd ((1 : Int) * 1) = Multiplicative.ofAdd 1 * Multiplicative.ofAdd (0 * 2)
    rw [← ofAdd_add]
    rfl
  · show ¬ (Multiplicative.ofAdd ((1 : Int) * (2 + 2 * 1))
      = Multiplicative.ofAdd 1 * Multiplicative.ofAdd ((0 + 2 * 1) * 2))
    rw [← ofAdd_add]
    intro h
    have := Multiplicative.ofAdd.injective h
    omega

theorem Pairing.zsmul_right {G1 G2 GT : Type} [AddCommGroup G1] [AddCommGroup G2]
    [CommGroup GT] (P : Pairing G1 G2 GT) (a : G1) (b : G2) (k : Int) :
    P.e a (k • b) = P.e a b ^ k := by
  let f : G2 →+ Additive GT :=
    AddMonoidHom.mk' (fun x => Additive.ofMul (P.e a x)) (fun x y => by
      show Additive.ofMul (P.e a (x + y)) = Additive.ofMul (P.e a x) + Additive.ofMul (P.e a y)
      rw [P.add_right, ofMul_mul])
  have h := map_zsmul f k b
  exact h

theorem Pairing.zsmul_left {G1 G2 GT : Type} [AddCommGroup G1] [AddCommGroup G2]
    [CommGroup GT] (P : Pairing G1 G2 GT) (a : G1) (b : G2) (k : Int) :
    P.e (k • a) b = P.e a b ^ k := by
  let f : G1 →+ Additive GT :=
    AddMonoidHom.mk' (fun x => Additive.ofMul (P.e x b)) (fun x y => by
      show Additive.ofMul (P.e (x + y) b) = Additive.ofMul (P.e x b) + Additive.ofMul (P.e y b)
      rw [P.add_left, ofMul_mul])
  have h := map_zsmul f k a
  exact h

/-- What the check on the blinded pair of lines 175-176 amounts to, for a
proof that passes the check: `e(A, Delta) * e(A, B) ^ eta` must equal
`e(A, B) * e(A, Delta) ^ eta`. -/
theorem blind_groth16Check_iff (lib : CurveLib) [AddCommGroup lib.G1] [AddCommGroup lib.G2]
    {GT : Type} [CommGroup GT] (hlib : GroupLaw lib) (P : Pairing lib.G1 lib.G2 GT) (K : GT)
    (A C : lib.G1) (B Delta : lib.G2) (eta : Int) (h : Groth16Check P K A B C Delta) :
    Groth16Check P K A (blindB lib Delta B eta) (blindC lib C A eta) Delta ↔
      P.e A Delta * P.e A B ^ eta = P.e A B * P.e A Delta ^ eta := by
  unfold Groth16Check at h ⊢
  unfold blindB blindC
  rw [hlib.addG2, hlib.addG1, hlib.scalarMultG2, hlib.scalarMultG1, P.add_right, P.add_left,
    P.zsmul_right, P.zsmul_left, ← mul_assoc, ← h]

/-- The pair `(B + eta * Delta, C + eta * A)`, with `B` and `Delta` the other
way round than in line 175, passes the check whenever the proof does. -/
theorem swapped_blind_groth16Check (lib : CurveLib) [AddCommGroup lib.G1]
    [AddCommGroup lib.G2] {GT : Type} [CommGroup GT] (hlib : GroupLaw lib)
    (P : Pairing lib.G1 lib.G2 GT) (K : GT) (A C : lib.G1) (B Delta : lib.G2) (eta : Int)
    (h : Groth16Check P K A B C Delta) :
    Groth16Check P K A (blindB lib B Delta eta) (blindC lib C A eta) Delta := by
  unfold Groth16Check at h ⊢
  unfold blindB blindC
  rw [hlib.addG2, hlib.addG1, hlib.scalarMultG2, hlib.scalarMultG1, P.add_right, P.add_left,
    P.zsmul_right, P.zsmul_left, ← mul_assoc, ← h]

/-! ### `main` (C2) -/

/-- C2: when the `delta`, `a`, `b`, `c` tokens decode to `Delta`, `A`, `B`, `C`
and the scalar is `eta` (parsed from a non-empty token, or sampled when the
token is empty), `main` produces the record with
`b = hexG2Point (Delta + eta * B)`, `c = hexG1Point (C + eta * A)` and
`eta = "0x" + hex (eta.Bytes())`. -/
theorem main_output (lib : CurveLib) (entropy : Option Int) (inputData : InputData)
    (Delta B : lib.G2) (A C : lib.G1) (eta : Int)
    (hDelta : parseG2Point lib inputData.Delta = some Delta)
    (hB : parseG2Point lib inputData.B = some B)
    (hA : parseG1Point lib inputData.A = some A)
    (hC : parseG1Point lib inputData.C = some C)
    (heta : (inputData.Eta ≠ [] ∧ parseBigInt inputData.Eta = some eta) ∨
      (inputData.Eta = [] ∧ entropy = some eta)) :
    main lib entropy inputData = some
      { B := hexG2Point (lib.marshalG2 (lib.addG2 Delta (lib.scalarMultG2 B eta)))
        C := hexG1Point (lib.marshalG1 (lib.addG1 C (lib.scalarMultG1 A eta)))
        Eta := '0' :: 'x' :: hexEncodeToString (bigBytes eta) } := by
  rcases heta with ⟨hne, hp⟩ | ⟨he, hs⟩
  · simp only [main, hDelta, hB, hA, hC, if_neg hne, hp, Option.bind_eq_bind,
      Option.some_bind, Option.pure_def, blindB, blindC]
    rfl
  · simp only [main, hDelta, hB, hA, hC, if_pos he, hs, Option.bind_eq_bind,
      Option.some_bind, Option.pure_def, blindB, blindC]
    rfl

set_option maxRecDepth 100000 in
/-- C2 at `sampleInput` with the stand-in library: `b` is `Delta + 2 * B`,
`c` is `C + 2 * A`, field by field, and `eta` is `0x02`; and the same record
with an empty `eta` token and the sampled scalar 3. -/
theorem main_output_witness :
    main intLib none sampleInput = some
        { B := (("0x0b".toList, "0x0e".toList), ("0x11".toList, "0x14".toList))
          C := ("0x05".toList, "0x08".toList)
          Eta := "0x02".toList } ∧
      main intLib (some 3) { sampleInput with Eta := [] } = some
        { B := (("0x10".toList, "0x14".toList), ("0x18".toList, "0x1c".toList))
          C := ("0x06".toList, "0x0a".toList)
          Eta := "0x03".toList } :=
  ⟨(main_output intLib none sampleInput _ _ _ _ 2 rfl rfl rfl rfl
      (Or.inl ⟨by decide, by decide⟩)).trans (by decide),
    (main_output intLib (some 3) { sampleInput with Eta := [] } _ _ _ _ 3 rfl rfl rfl rfl
      (Or.inr ⟨rfl, rfl⟩)).trans (by decide)⟩

/-! ### Rendering and parsing agree (C11, C18) -/

theorem setBytes_append_singleton (l : List Byte) (b : Byte) :
    setBytes (l ++ [b]) = setBytes l * 256 + b.val := by
  simp [setBytes, List.foldl_append]

theorem setBytes_natBytes : ∀ (n : Nat), setBytes (natBytes n) = n := by
  intro n
  induction n using Nat.strong_induction_on with
  | _ n ih =>
    by_cases h0 : n = 0
    · subst h0; rfl
    · have hlt : n / 256 < n := Nat.div_lt_self (Nat.pos_of_ne_zero h0) (by decide)
      rw [natBytes_pos n h0, setBytes_append_singleton, ih _ hlt]
      simp only [byte]
      omega

theorem setBytes_lt : ∀ (f : List Byte), setBytes f < 256 ^ f.length := by
  intro f
  induction f using List.reverseRecOn with
  | nil => simp [setBytes]
  | append_singleton l b ih =>
    rw [setBytes_append_singleton, List.length_append, List.length_singleton, pow_succ]
    have := b.isLt
    omega

theorem bigEndian_setBytes : ∀ (f : List Byte), bigEndian f.length (setBytes f) = f := by
  intro f
  induction f using List.reverseRecOn with
  | nil => rfl
  | append_singleton l b ih =>
    have hb := b.isLt
    have hdiv : (setBytes l * 256 + b.val) / 256 = setBytes l := by omega
    have hbyte : byte (setBytes l * 256 + b.val) = b := by
      apply Fin.ext
      simp only [byte]
      omega
    rw [setBytes_append_singleton, List.length_append, List.length_singleton, bigEndian_succ,
      hdiv, ih, hbyte]

theorem natBytes_ne_nil (n : Nat) (hn : n ≠ 0) : natBytes n ≠ [] := by
  rw [natBytes_pos n hn]
  simp

theorem hextable_getD_digit : ∀ n : Fin 16,
    specDigit (hextable.getD n.val '0') = some n.val := by
  decide

theorem hexEncodeToString_digits : ∀ (src : List Byte),
    ∀ c ∈ hexEncodeToString src, IsDigitOf 16 c := by
  intro src
  induction src with
  | nil => intro c hc; simp [hexEncodeToString] at hc
  | cons v src ih =>
    intro c hc
    simp only [hexEncodeToString, List.mem_cons] at hc
    rcases hc with rfl | rfl | hc
    · exact ⟨v.val / 16, hextable_getD_digit ⟨v.val / 16, by omega⟩, by omega⟩
    · exact ⟨v.val % 16, hextable_getD_digit ⟨v.val % 16, by omega⟩, by omega⟩
    · exact ih c hc

theorem radixValue_hexEncodeToString : ∀ (src : List Byte),
    radixValue 16 (hexEncodeToString src) = setBytes src := by
  intro src
  rw [← foldl_eq_radixValue 16 _ (hexEncodeToString_digits src)]
  have key : ∀ (l : List Byte) (z : Nat),
      (hexEncodeToString l).foldl (fun a c => a * 16 + digitVal c) z
        = l.foldl (fun z c => z * 256 + c.val) z := by
    intro l
    induction l with
    | nil => intro z; rfl
    | cons v l ih =>
      intro z
      have h1 := digitVal_of_specDigit _ _ (hextable_getD_digit ⟨v.val / 16, by omega⟩)
      have h2 := digitVal_of_specDigit _ _ (hextable_getD_digit ⟨v.val % 16, by omega⟩)
      simp only at h1 h2
      simp only [hexEncodeToString, List.foldl_cons, h1, h2, ih]
      congr 1
      omega
  exact key src 0

theorem hexField_eq (field : List Byte) :
    hexField field = '0' :: 'x' :: hexEncodeToString (natBytes (setBytes field)) := by
  simp [hexField, bigBytes]

theorem parseBigInt_hexField (field : List Byte) (h : setBytes field ≠ 0) :
    parseBigInt (hexField field) = some ((setBytes field : Nat) : Int) := by
  have hne : hexEncodeToString (natBytes (setBytes field)) ≠ [] := by
    intro hnil
    have hlen := hexEncodeToString_length (natBytes (setBytes field))
    rw [hnil] at hlen
    have : (natBytes (setBytes field)).length = 0 := by simpa using hlen.symm
    exact natBytes_ne_nil _ h (List.length_eq_zero.mp this)
  rw [hexField_eq]
  unfold parseBigInt
  rw [(splitRadix_hex _).1, setString_digits 16 (le_refl _) _ hne (hexEncodeToString_digits _),
    radixValue_hexEncodeToString, setBytes_natBytes]

theorem parseBigInt_hexField_zero (field : List Byte) (h : setBytes field = 0) :
    hexField field = "0x".toList ∧ parseBigInt (hexField field) = none := by
  have hf : hexField field = "0x".toList := by
    rw [hexField_eq, h]
    rfl
  rw [hf]
  exact ⟨rfl, by decide⟩

theorem subSlice_length (b : List Byte) (lo hi : Nat) (hlo : lo ≤ hi) (hhi : hi ≤ b.length) :
    (subSlice b lo hi).length = hi - lo := by
  simp [subSlice]
  omega

theorem subSlice_append (b : List Byte) (lo mid hi : Nat) (h1 : lo ≤ mid) (h2 : mid ≤ hi) :
    subSlice b lo mid ++ subSlice b mid hi = subSlice b lo hi := by
  unfold subSlice
  have h : List.take mid b = List.take mid (List.take hi b) := by
    rw [List.take_take, Nat.min_eq_left h2]
  rw [h]
  have hd : List.drop mid (List.take hi b)
      = List.drop (mid - lo) (List.drop lo (List.take hi b)) := by
    rw [List.drop_drop]
    congr 1
    omega
  have ht : List.drop lo (List.take mid (List.take hi b))
      = List.take (mid - lo) (List.drop lo (List.take hi b)) := by
    rw [List.drop_take]
  rw [hd, ht, List.take_append_drop]

theorem subSlice_full (b : List Byte) : subSlice b 0 b.length = b := by
  simp [subSlice]

theorem be32_setBytes (field : List Byte) (h : field.length = 32) :
    be32 (setBytes field) = field := by
  unfold be32
  rw [← h]
  exact bigEndian_setBytes field

theorem setBytes_lt_of_length (field : List Byte) (h : field.length = 32) :
    setBytes field < 2 ^ 256 := by
  have := setBytes_lt field
  rw [h] at this
  have e : (256 : Nat) ^ 32 = 2 ^ 256 := by norm_num
  omega

/-- C11, as the code has it: for every 64-byte buffer `b` whose two 32-byte
fields are both non-zero, the two strings `hexG1Point` renders from `b` are
accepted by `parseBigInt` with the fields' values, and the buffer
`parseG1Point` builds from them and hands to `Unmarshal` is `b` itself. -/
theorem hexG1Point_roundtrip (lib : CurveLib) (b : List Byte) (hlen : b.length = 64)
    (hx : setBytes (subSlice b 0 32) ≠ 0) (hy : setBytes (subSlice b 32 64) ≠ 0) :
    parseBigInt (hexG1Point b).1 = some ((setBytes (subSlice b 0 32) : Nat) : Int) ∧
      parseBigInt (hexG1Point b).2 = some ((setBytes (subSlice b 32 64) : Nat) : Int) ∧
      parseG1PointBuffer (hexG1Point b) = some b ∧
      parseG1Point lib (hexG1Point b) = lib.unmarshalG1 b := by
  have l1 : (subSlice b 0 32).length = 32 := by
    rw [subSlice_length b 0 32 (by omega) (by omega)]
  have l2 : (subSlice b 32 64).length = 32 := by
    rw [subSlice_length b 32 64 (by omega) (by omega)]
  have p1 : parseBigInt (hexG1Point b).1 = some ((setBytes (subSlice b 0 32) : Nat) : Int) :=
    parseBigInt_hexField _ hx
  have p2 : parseBigInt (hexG1Point b).2 = some ((setBytes (subSlice b 32 64) : Nat) : Int) :=
    parseBigInt_hexField _ hy
  have hb : be32 (setBytes (subSlice b 0 32)) ++ be32 (setBytes (subSlice b 32 64)) = b := by
    rw [be32_setBytes _ l1, be32_setBytes _ l2, subSlice_append b 0 32 64 (by omega) (by omega),
      ← hlen, subSlice_full]
  have hbuf : parseG1PointBuffer (hexG1Point b) = some b := by
    rw [parseG1PointBuffer_values (hexG1Point b) _ _ p1 p2 (setBytes_lt_of_length _ l1)
      (setBytes_lt_of_length _ l2), hb]
  exact ⟨p1, p2, hbuf, by simp [parseG1Point, hbuf]⟩

/-- C11 at the buffer of the G1 generator `(1, 2)`: it is rendered
`("0x01", "0x02")`, which parses back to the same 64 bytes. -/
theorem hexG1Point_roundtrip_witness :
    hexG1Point (be32 1 ++ be32 2) = ("0x01".toList, "0x02".toList) ∧
      parseG1PointBuffer (hexG1Point (be32 1 ++ be32 2)) = some (be32 1 ++ be32 2) :=
  ⟨by decide,
    (hexG1Point_roundtrip intLib (be32 1 ++ be32 2) (by decide) (by decide) (by decide)).2.2.1⟩

/-- C11 fails as stated: the all-zero buffer of the point at infinity is
rendered `("0x", "0x")`; `parseBigInt` rejects `0x`, so `parseG1Point` builds
no buffer from it. -/
theorem hexG1Point_infinity_not_parsed :
    hexG1Point (List.replicate 64 0) = ("0x".toList, "0x".toList) ∧
      parseBigInt (hexG1Point (List.replicate 64 0)).1 = none ∧
      parseG1PointBuffer (hexG1Point (List.replicate 64 0)) = none := by
  decide

/-- C18: for every 128-byte buffer `m` whose four 32-byte fields are each
non-zero, the four strings `hexG2Point` renders from `m` are accepted by
`parseBigInt` with the fields' values, and the buffer `parseG2Point` builds
from them and hands to `Unmarshal` is `m` itself. -/
theorem hexG2Point_roundtrip (lib : CurveLib) (m : List Byte) (hlen : m.length = 128)
    (h1 : setBytes (subSlice m 0 32) ≠ 0) (h2 : setBytes (subSlice m 32 64) ≠ 0)
    (h3 : setBytes (subSlice m 64 96) ≠ 0) (h4 : setBytes (subSlice m 96 128) ≠ 0) :
    parseBigInt (hexG2Point m).1.1 = some ((setBytes (subSlice m 0 32) : Nat) : Int) ∧
      parseBigInt (hexG2Point m).1.2 = some ((setBytes (subSlice m 32 64) : Nat) : Int) ∧
      parseBigInt (hexG2Point m).2.1 = some ((setBytes (subSlice m 64 96) : Nat) : Int) ∧
      parseBigInt (hexG2Point m).2.2 = some ((setBytes (subSlice m 96 128) : Nat) : Int) ∧
      parseG2PointBuffer (hexG2Point m) = some m ∧
      parseG2Point lib (hexG2Point m) = lib.unmarshalG2 m := by
  have l1 : (subSlice m 0 32).length = 32 := by
    rw [subSlice_length m 0 32 (by omega) (by omega)]
  have l2 : (subSlice m 32 64).length = 32 := by
    rw [subSlice_length m 32 64 (by omega) (by omega)]
  have l3 : (subSlice m 64 96).length = 32 := by
    rw [subSlice_length m 64 96 (by omega) (by omega)]
  have l4 : (subSlice m 96 128).length = 32 := by
    rw [subSlice_length m 96 128 (by omega) (by omega)]
  have p1 : parseBigInt (hexG2Point m).1.1 = some ((setBytes (subSlice m 0 32) : Nat) : Int) :=
    parseBigInt_hexField _ h1
  have p2 : parseBigInt (hexG2Point m).1.2 = some ((setBytes (subSlice m 32 64) : Nat) : Int) :=
    parseBigInt_hexField _ h2
  have p3 : parseBigInt (hexG2Point m).2.1 = some ((setBytes (subSlice m 64 96) : Nat) : Int) :=
    parseBigInt_hexField _ h3
  have p4 : parseBigInt (hexG2Point m).2.2
      = some ((setBytes (subSlice m 96 128) : Nat) : Int) :=
    parseBigInt_hexField _ h4
  have hm : be32 (setBytes (subSlice m 0 32)) ++ be32 (setBytes (subSlice m 32 64))
      ++ be32 (setBytes (subSlice m 64 96)) ++ be32 (setBytes (subSlice m 96 128)) = m := by
    rw [be32_setBytes _ l1, be32_setBytes _ l2, be32_setBytes _ l3, be32_setBytes _ l4,
      subSlice_append m 0 32 64 (by omega) (by omega),
      subSlice_append m 0 64 96 (by omega) (by omega),
      subSlice_append m 0 96 128 (by omega) (by omega), ← hlen, subSlice_full]
  have hbuf : parseG2PointBuffer (hexG2Point m) = some m := by
    rw [parseG2PointBuffer_values (hexG2Point m) _ _ _ _ p1 p2 p3 p4
      (setBytes_lt_of_length _ l1) (setBytes_lt_of_length _ l2)
      (setBytes_lt_of_length _ l3) (setBytes_lt_of_length _ l4), hm]
  exact ⟨p1, p2, p3, p4, hbuf, by simp [parseG2Point, hbuf]⟩

set_option maxRecDepth 100000 in
/-- C18 at the buffer with the fields 1, 2, 3, 4: it is rendered
`[["0x01", "0x02"], ["0x03", "0x04"]]`, which parses back to the same 128
bytes. -/
theorem hexG2Point_roundtrip_witness :
    hexG2Point (be32 1 ++ be32 2 ++ be32 3 ++ be32 4)
        = (("0x01".toList, "0x02".toList), ("0x03".toList, "0x04".toList)) ∧
      parseG2PointBuffer (hexG2Point (be32 1 ++ be32 2 ++ be32 3 ++ be32 4))
        = some (be32 1 ++ be32 2 ++ be32 3 ++ be32 4) :=
  ⟨by decide,
    (hexG2Point_roundtrip intLib (be32 1 ++ be32 2 ++ be32 3 ++ be32 4) (by decide)
      (by decide) (by decide) (by decide) (by decide)).2.2.2.2.1⟩

/-! ### Linearity of the blinding (C13, C14) -/

theorem zmodLib_groupLaw : GroupLaw zmodLib where
  addG1 := fun _ _ => rfl
  addG2 := fun _ _ => rfl
  scalarMultG1 := fun p k => by
    show (k : ZMod 7) * p = k • p
    rw [zsmul_eq_mul]
  scalarMultG2 := fun p k => by
    show (k : ZMod 7) * p = k • p
    rw [zsmul_eq_mul]

theorem blindB_twice (lib : CurveLib) [AddCommGroup lib.G1] [AddCommGroup lib.G2]
    (hlib : GroupLaw lib) (Delta B : lib.G2) (eta1 eta2 : Int) :
    blindB lib Delta (blindB lib Delta B eta1) eta2
      = Delta + eta2 • Delta + (eta2 * eta1) • B := by
  unfold blindB
  rw [hlib.addG2, hlib.addG2, hlib.scalarMultG2, hlib.scalarMultG2, smul_add, mul_smul,
    add_assoc]

/-- With `B` and `Delta` the other way round than in line 175, blinding twice
is blinding once with the sum of the scalars. -/
theorem swapped_blindB_linear (lib : CurveLib) [AddCommGroup lib.G1] [AddCommGroup lib.G2]
    (hlib : GroupLaw lib) (Delta B : lib.G2) (eta1 eta2 : Int) :
    blindB lib (blindB lib B Delta eta1) Delta eta2 = blindB lib B Delta (eta1 + eta2) := by
  unfold blindB
  rw [hlib.addG2, hlib.addG2, hlib.addG2, hlib.scalarMultG2, hlib.scalarMultG2,
    hlib.scalarMultG2, add_smul, add_assoc]

/-- C13 on the code: with `Delta = 1`, `B = 0` and `eta1 = eta2 = 1` in the
integer stand-in, the first run gives `B1 = 1`, the second run on `B1` gives
`Delta + eta2 * B1 = 2`, and the single run with `eta1 + eta2 = 2` gives
`Delta + 2 * B = 1`. -/
theorem blindB_not_linear :
    blindB intLib 1 0 1 = (1 : Int) ∧
      blindB intLib 1 (blindB intLib 1 0 1) 1 = (2 : Int) ∧
      blindB intLib 1 0 (1 + 1) = (1 : Int) ∧
      blindB intLib 1 (blindB intLib 1 0 1) 1 ≠ blindB intLib 1 0 (1 + 1) := by
  decide

/-- C14: running the transform with `eta1` and again on its result with
`eta2`, `A` unchanged, gives the `C'` of a single run with `eta1 + eta2`, and
with `(eta1 + eta2) mod r` when `r` annihilates `A`:
`(C + eta1 * A) + eta2 * A = C + (eta1 + eta2) * A`. -/
theorem blindC_linear (lib : CurveLib) [AddCommGroup lib.G1] [AddCommGroup lib.G2]
    (hlib : GroupLaw lib) (A C : lib.G1) (eta1 eta2 r : Int) (hr : r • A = 0) :
    blindC lib (blindC lib C A eta1) A eta2 = blindC lib C A (eta1 + eta2) ∧
      blindC lib (blindC lib C A eta1) A eta2 = blindC lib C A ((eta1 + eta2) % r) := by
  have h1 : blindC lib (blindC lib C A eta1) A eta2 = blindC lib C A (eta1 + eta2) := by
    unfold blindC
    rw [hlib.addG1, hlib.addG1, hlib.addG1, hlib.scalarMultG1, hlib.scalarMultG1,
      hlib.scalarMultG1, add_smul, add_assoc]
  have h2 : ((eta1 + eta2) % r) • A = (eta1 + eta2) • A := by
    conv_rhs => rw [← Int.emod_add_ediv (eta1 + eta2) r]
    rw [add_smul, mul_smul, smul_comm, hr, smul_zero, add_zero]
  refine ⟨h1, ?_⟩
  rw [h1]
  unfold blindC
  rw [hlib.scalarMultG1, hlib.scalarMultG1, h2]

/-- C14 in the stand-in of order 7 at `C = 3`, `A = 2`, `eta1 = 5`,
`eta2 = 4`: both ways give `C' = 0`, and `(5 + 4) mod 7 = 2`. -/
theorem blindC_linear_witness :
    blindC zmodLib (blindC zmodLib 3 2 5) 2 4 = blindC zmodLib 3 2 (5 + 4) ∧
      blindC zmodLib (blindC zmodLib 3 2 5) 2 4 = blindC zmodLib 3 2 ((5 + 4) % 7) ∧
      ((5 + 4 : Int) % 7 = 2) :=
  let h := blindC_linear zmodLib zmodLib_groupLaw (2 : ZMod 7) (3 : ZMod 7) 5 4 7
    (show (7 : Int) • (2 : ZMod 7) = 0 by decide)
  ⟨h.1, h.2, by decide⟩

/-! ### `main`: identity blinding, failure and determinism (C12, C15, C16) -/

/-- C12: when the `delta`, `a`, `b`, `c` tokens decode to valid points and
the `eta` token is `0x0`, and the library has `ScalarMult(P, 0) = identity`
and `Add(Q, identity) = Q`, the output has `b = hexG2Point(Delta)`,
`c = hexG1Point(C)` and `eta = "0x"`. -/
theorem main_eta_zero (lib : CurveLib) (entropy : Option Int) (inputData : InputData)
    (Delta B : lib.G2) (A C : lib.G1) (O1 : lib.G1) (O2 : lib.G2)
    (hDelta : parseG2Point lib inputData.Delta = some Delta)
    (hB : parseG2Point lib inputData.B = some B)
    (hA : parseG1Point lib inputData.A = some A)
    (hC : parseG1Point lib inputData.C = some C)
    (heta : inputData.Eta = "0x0".toList)
    (hmul1 : ∀ P, lib.scalarMultG1 P 0 = O1) (hadd1 : ∀ Q, lib.addG1 Q O1 = Q)
    (hmul2 : ∀ P, lib.scalarMultG2 P 0 = O2) (hadd2 : ∀ Q, lib.addG2 Q O2 = Q) :
    main lib entropy inputData = some
      { B := hexG2Point (lib.marshalG2 Delta)
        C := hexG1Point (lib.marshalG1 C)
        Eta := "0x".toList } := by
  have hne : inputData.Eta ≠ [] := by rw [heta]; decide
  have hp : parseBigInt inputData.Eta = some 0 := by rw [heta]; decide
  simp only [main, hDelta, hB, hA, hC, if_neg hne, hp, Option.bind_eq_bind,
    Option.some_bind, Option.pure_def, blindB, blindC, hmul1, hmul2, hadd1, hadd2]
  rfl

set_option maxRecDepth 100000 in
/-- C12 at `sampleInput` with `eta = "0x0"` in the integer stand-in: `b` is
the rendering of `Delta = (1, 2, 3, 4)` and `c` that of `C = (3, 4)`. -/
theorem main_eta_zero_witness :
    main intLib none { sampleInput with Eta := "0x0".toList } = some
      { B := (("0x01".toList, "0x02".toList), ("0x03".toList, "0x04".toList))
        C := ("0x03".toList, "0x04".toList)
        Eta := "0x".toList } :=
  (main_eta_zero intLib none { sampleInput with Eta := "0x0".toList } _ _ _ _ (0 : Int) (0 : Int)
    rfl rfl rfl rfl rfl (fun P => Int.zero_mul P) (fun Q => Int.add_zero Q)
    (fun P => Int.zero_mul P) (fun Q => Int.add_zero Q)).trans (by decide)

theorem parseG1Point_none (lib : CurveLib) (s : Strings2)
    (h : parseBigInt s.1 = none ∨ parseBigInt s.2 = none ∨ parseG1PointBuffer s = none ∨
      ∃ buf, parseG1PointBuffer s = some buf ∧ lib.unmarshalG1 buf = none) :
    parseG1Point lib s = none := by
  unfold parseG1Point
  rcases h with h | h | h | ⟨buf, h, hu⟩
  · simp [parseG1PointBuffer, h]
  · cases hx : parseBigInt s.1 <;> simp [parseG1PointBuffer, h, hx]
  · simp [h]
  · simp [h, hu]

theorem parseG2Point_none (lib : CurveLib) (s : Strings2x2)
    (h : parseBigInt s.1.1 = none ∨ parseBigInt s.1.2 = none ∨ parseBigInt s.2.1 = none ∨
      parseBigInt s.2.2 = none ∨ parseG2PointBuffer s = none ∨
      ∃ buf, parseG2PointBuffer s = some buf ∧ lib.unmarshalG2 buf = none) :
    parseG2Point lib s = none := by
  unfold parseG2Point
  rcases h with h | h | h | h | h | ⟨buf, h, hu⟩
  · simp [parseG2PointBuffer, h]
  · cases h1 : parseBigInt s.1.1 <;> simp [parseG2PointBuffer, h, h1]
  · cases h1 : parseBigInt s.1.1 <;> cases h2 : parseBigInt s.1.2 <;>
      simp [parseG2PointBuffer, h, h1, h2]
  · cases h1 : parseBigInt s.1.1 <;> cases h2 : parseBigInt s.1.2 <;>
      cases h3 : parseBigInt s.2.1 <;> simp [parseG2PointBuffer, h, h1, h2, h3]
  · simp [h]
  · simp [h, hu]

/-- C15: if decoding `delta`, `b`, `a` or `c` fails (a token `parseBigInt`
rejects, a failing encoding step, a buffer `Unmarshal` rejects), or the `eta`
token is rejected, or the entropy source fails when `eta` is empty, `main`
aborts and the output file keeps its content; a record is written only when
all five have been decoded, and it is the one computed from them. -/
theorem main_abort (lib : CurveLib) (entropy : Option Int) (inputData : InputData)
    (before : Option OutputData) :
    ((parseG2Point lib inputData.Delta = none ∨ parseG2Point lib inputData.B = none ∨
        parseG1Point lib inputData.A = none ∨ parseG1Point lib inputData.C = none ∨
        (inputData.Eta = [] ∧ entropy = none) ∨
        (inputData.Eta ≠ [] ∧ parseBigInt inputData.Eta = none)) →
      main lib entropy inputData = none ∧
        outputFile lib entropy inputData before = before) ∧
    (∀ outputData, main lib entropy inputData = some outputData →
      outputFile lib entropy inputData before = some outputData ∧
      ∃ Delta B A C eta, parseG2Point lib inputData.Delta = some Delta ∧
        parseG2Point lib inputData.B = some B ∧ parseG1Point lib inputData.A = some A ∧
        parseG1Point lib inputData.C = some C ∧
        (if inputData.Eta = [] then entropy else parseBigInt inputData.Eta) = some eta ∧
        outputData =
          { B := hexG2Point (lib.marshalG2 (blindB lib Delta B eta))
            C := hexG1Point (lib.marshalG1 (blindC lib C A eta))
            Eta := "0x".toList ++ hexEncodeToString (bigBytes eta) }) ∧
    (∀ s : Strings2,
      (parseBigInt s.1 = none ∨ parseBigInt s.2 = none ∨ parseG1PointBuffer s = none ∨
        ∃ buf, parseG1PointBuffer s = some buf ∧ lib.unmarshalG1 buf = none) →
      parseG1Point lib s = none) ∧
    (∀ s : Strings2x2,
      (parseBigInt s.1.1 = none ∨ parseBigInt s.1.2 = none ∨ parseBigInt s.2.1 = none ∨
        parseBigInt s.2.2 = none ∨ parseG2PointBuffer s = none ∨
        ∃ buf, parseG2PointBuffer s = some buf ∧ lib.unmarshalG2 buf = none) →
      parseG2Point lib s = none) := by
  refine ⟨?_, ?_, parseG1Point_none lib, parseG2Point_none lib⟩
  · intro h
    have hmain : main lib entropy inputData = none := by
      unfold main
      cases hD : parseG2Point lib inputData.Delta with
      | none => rfl
      | some Delta =>
        cases hB : parseG2Point lib inputData.B with
        | none => rfl
        | some B =>
          cases hA : parseG1Point lib inputData.A with
          | none => rfl
          | some A =>
            cases hC : parseG1Point lib inputData.C with
            | none => rfl
            | some C =>
              rcases h with h | h | h | h | ⟨he, hs⟩ | ⟨hne, hp⟩
              · rw [hD] at h; cases h
              · rw [hB] at h; cases h
              · rw [hA] at h; cases h
              · rw [hC] at h; cases h
              · simp [he, hs]
              · simp [hne, hp]
    exact ⟨hmain, by simp [outputFile, hmain]⟩
  · intro outputData hout
    refine ⟨by simp [outputFile, hout], ?_⟩
    unfold main at hout
    cases hD : parseG2Point lib inputData.Delta with
    | none => rw [hD] at hout; cases hout
    | some Delta =>
      cases hB : parseG2Point lib inputData.B with
      | none => rw [hD, hB] at hout; cases hout
      | some B =>
        cases hA : parseG1Point lib inputData.A with
        | none => rw [hD, hB, hA] at hout; cases hout
        | some A =>
          cases hC : parseG1Point lib inputData.C with
          | none => rw [hD, hB, hA, hC] at hout; cases hout
          | some C =>
            rw [hD, hB, hA, hC] at hout
            simp only [Option.bind_eq_bind, Option.some_bind] at hout
            by_cases he : inputData.Eta = []
            · rw [if_pos he] at hout
              cases hs : entropy with
              | none => rw [hs] at hout; cases hout
              | some eta =>
                rw [hs] at hout
                exact ⟨Delta, B, A, C, eta, rfl, rfl, rfl, rfl, by rw [if_pos he],
                  (Option.some.inj hout).symm⟩
            · rw [if_neg he] at hout
              cases hp : parseBigInt inputData.Eta with
              | none => rw [hp] at hout; cases hout
              | some eta =>
                rw [hp] at hout
                exact ⟨Delta, B, A, C, eta, rfl, rfl, rfl, rfl, by rw [if_neg he],
                  (Option.some.inj hout).symm⟩

/-- C16: with a non-empty `eta` token the output of `main` does not depend on
the entropy source. -/
theorem main_deterministic (lib : CurveLib) (entropy1 entropy2 : Option Int)
    (inputData : InputData) (hne : inputData.Eta ≠ []) :
    main lib entropy1 inputData = main lib entropy2 inputData := by
  simp only [main, if_neg hne]

set_option maxRecDepth 100000 in
/-- C16 at `sampleInput`: the runs with a failing entropy source and with the
sample 5 give the same record. -/
theorem main_deterministic_witness :
    main intLib none sampleInput = main intLib (some 5) sampleInput ∧
      main intLib (some 5) sampleInput = some
        { B := (("0x0b".toList, "0x0e".toList), ("0x11".toList, "0x14".toList))
          C := ("0x05".toList, "0x08".toList)
          Eta := "0x02".toList } :=
  ⟨main_deterministic intLib none (some 5) sampleInput (by decide), by decide⟩

/-! ### Fields wider than 32 bytes in `parseG2Point` (C17) -/

theorem copyInto_end (b src : List Byte) (hi : Nat) (lo' hi' : Int)
    (hsrc : src.length ≤ hi) (hhi : hi ≤ b.length) (e1 : hi' = (hi : Int))
    (e2 : lo' = hi' - (src.length : Int)) :
    copyInto b lo' hi' src = some (writeEnd b hi src) := by
  have hlo : lo'.toNat = hi - src.length := by omega
  have hn : min (hi' - lo').toNat src.length = src.length := by
    have : (hi' - lo').toNat = src.length := by omega
    rw [this, Nat.min_self]
  have hcond : 0 ≤ lo' ∧ lo' ≤ hi' ∧ hi' ≤ (b.length : Int) := by omega
  unfold copyInto writeEnd
  rw [if_pos hcond]
  simp only [hn, hlo, List.take_length]
  have : hi - src.length + src.length = hi := by omega
  rw [this]

theorem writeEnd_length (b src : List Byte) (hi : Nat) (hsrc : src.length ≤ hi)
    (hhi : hi ≤ b.length) : (writeEnd b hi src).length = b.length := by
  simp [writeEnd]
  omega

theorem parseG2PointBuffer_wide_xIm (s : Strings2x2) (xIm : Int)
    (h00 : parseBigInt s.1.1 = some xIm) (hwide : 32 < (bigBytes xIm).length) :
    parseG2PointBuffer s = none := by
  have hcopy : ∀ b : List Byte,
      copyInto b (1 * 32 - ((bigBytes xIm).length : Int)) (1 * 32) (bigBytes xIm) = none := by
    intro b
    unfold copyInto
    rw [if_neg]
    omega
  unfold parseG2PointBuffer
  rw [h00]
  cases h01 : parseBigInt s.1.2 with
  | none => rfl
  | some xRe =>
    cases h10 : parseBigInt s.2.1 with
    | none => rfl
    | some yIm =>
      cases h11 : parseBigInt s.2.2 with
      | none => rfl
      | some yRe =>
        simp only [Option.bind_eq_bind, Option.some_bind, hcopy, Option.none_bind]

theorem parseG2PointBuffer_writeEnd (s : Strings2x2) (xIm xRe yIm yRe : Int)
    (h00 : parseBigInt s.1.1 = some xIm) (h01 : parseBigInt s.1.2 = some xRe)
    (h10 : parseBigInt s.2.1 = some yIm) (h11 : parseBigInt s.2.2 = some yRe)
    (l1 : (bigBytes xIm).length ≤ 32) (l2 : (bigBytes xRe).length ≤ 64)
    (l3 : (bigBytes yIm).length ≤ 96) (l4 : (bigBytes yRe).length ≤ 128) :
    parseG2PointBuffer s = some
      (writeEnd (writeEnd (writeEnd (writeEnd (List.replicate 128 0) 32 (bigBytes xIm))
        64 (bigBytes xRe)) 96 (bigBytes yIm)) 128 (bigBytes yRe)) := by
  have n0 : (List.replicate 128 (0 : Byte)).length = 128 := List.length_replicate _ _
  have n1 := writeEnd_length (List.replicate 128 0) (bigBytes xIm) 32 l1 (by omega)
  have n2 := writeEnd_length _ (bigBytes xRe) 64 l2 (by omega : 64 ≤
    (writeEnd (List.replicate 128 0) 32 (bigBytes xIm)).length)
  have n3 := writeEnd_length _ (bigBytes yIm) 96 l3 (by omega : 96 ≤
    (writeEnd (writeEnd (List.replicate 128 0) 32 (bigBytes xIm)) 64 (bigBytes xRe)).length)
  have c1 := copyInto_end (List.replicate 128 0) (bigBytes xIm) 32
    (1 * 32 - ((bigBytes xIm).length : Int)) (1 * 32) l1 (by omega) (by norm_num) rfl
  have c2 := copyInto_end (writeEnd (List.replicate 128 0) 32 (bigBytes xIm)) (bigBytes xRe) 64
    (2 * 32 - ((bigBytes xRe).length : Int)) (2 * 32) l2 (by omega) (by norm_num) rfl
  have c3 := copyInto_end
    (writeEnd (writeEnd (List.replicate 128 0) 32 (bigBytes xIm)) 64 (bigBytes xRe))
    (bigBytes yIm) 96
    (3 * 32 - ((bigBytes yIm).length : Int)) (3 * 32) l3 (by omega) (by norm_num) rfl
  have c4 := copyInto_end
    (writeEnd (writeEnd (writeEnd (List.replicate 128 0) 32 (bigBytes xIm)) 64 (bigBytes xRe))
      96 (bigBytes yIm))
    (bigBytes yRe) 128
    (4 * 32 - ((bigBytes yRe).length : Int)) (4 * 32) l4 (by omega) (by norm_num) rfl
  simp only [parseG2PointBuffer, h00, h01, h10, h11, Option.bind_eq_bind, Option.some_bind,
    c1, c2, c3, c4, Option.pure_def]

theorem parseG2PointBuffer_wide_xRe (s : Strings2x2) (xIm xRe yIm yRe : Nat)
    (h00 : parseBigInt s.1.1 = some (xIm : Int)) (h01 : parseBigInt s.1.2 = some (xRe : Int))
    (h10 : parseBigInt s.2.1 = some (yIm : Int)) (h11 : parseBigInt s.2.2 = some (yRe : Int))
    (hxIm : xIm < 2 ^ 256) (hlo : 2 ^ 256 ≤ xRe) (hhi : xRe < 2 ^ 512)
    (hyIm : yIm < 2 ^ 256) (hyRe : yRe < 2 ^ 256) :
    32 < (natBytes xRe).length ∧ (natBytes xRe).length ≤ 64 ∧
      parseG2PointBuffer s = some ((be32 xIm).take (64 - (natBytes xRe).length)
        ++ natBytes xRe ++ be32 yIm ++ be32 yRe) := by
  obtain ⟨l1, p1⟩ := natBytes_pad32 xIm hxIm
  obtain ⟨l3, p3⟩ := natBytes_pad32 yIm hyIm
  obtain ⟨l4, p4⟩ := natBytes_pad32 yRe hyRe
  have e32 : (256 : Nat) ^ 32 = 2 ^ 256 := by norm_num
  have e64 : (256 : Nat) ^ 64 = 2 ^ 512 := by norm_num
  have hL1 : 32 < (natBytes xRe).length := natBytes_length_gt 32 xRe (by omega)
  have hL2 : (natBytes xRe).length ≤ 64 := natBytes_length_le 64 xRe (by omega)
  have h1 : copyInto (List.replicate (32 * 4) (0 : Byte))
      (1 * 32 - ((natBytes xIm).length : Int)) (1 * 32) (natBytes xIm)
      = some (be32 xIm ++ List.replicate 96 0) := by
    have h := copyInto_field [] (List.replicate 96 0) (natBytes xIm) 32
      (1 * 32 - ((natBytes xIm).length : Int)) (1 * 32) l1 (by simp) rfl
    rw [p1] at h
    simpa [← List.replicate_add] using h
  have hpre : ((be32 xIm).take (64 - (natBytes xRe).length) ++ natBytes xRe).length = 64 := by
    rw [List.length_append, List.length_take, be32_length]
    omega
  have h2 : copyInto (be32 xIm ++ List.replicate 96 0)
      (2 * 32 - ((natBytes xRe).length : Int)) (2 * 32) (natBytes xRe)
      = some ((be32 xIm).take (64 - (natBytes xRe).length) ++ natBytes xRe
          ++ List.replicate 32 0 ++ List.replicate 32 0) := by
    have h := copyInto_end (be32 xIm ++ List.replicate 96 0) (natBytes xRe) 64
      (2 * 32 - ((natBytes xRe).length : Int)) (2 * 32) hL2
      (by rw [List.length_append, be32_length, List.length_replicate]; norm_num)
      (by norm_num) rfl
    rw [h]
    unfold writeEnd
    have ht : List.take (64 - (natBytes xRe).length) (be32 xIm ++ List.replicate 96 0)
        = List.take (64 - (natBytes xRe).length) (be32 xIm) := by
      apply List.take_append_of_le_length
      rw [be32_length]
      omega
    have hd : List.drop 64 (be32 xIm ++ List.replicate 96 (0 : Byte))
        = List.replicate 32 0 ++ List.replicate 32 0 := by
      have : (64 : Nat) = (be32 xIm).length + 32 := by rw [be32_length]
      rw [this, List.drop_append, List.drop_replicate, ← List.replicate_add]
    rw [ht, hd, List.append_assoc, List.append_assoc, List.append_assoc]
  have h3 : copyInto ((be32 xIm).take (64 - (natBytes xRe).length) ++ natBytes xRe
        ++ List.replicate 32 0 ++ List.replicate 32 0)
      (3 * 32 - ((natBytes yIm).length : Int)) (3 * 32) (natBytes yIm)
      = some ((be32 xIm).take (64 - (natBytes xRe).length) ++ natBytes xRe
          ++ be32 yIm ++ List.replicate 32 0) := by
    have h := copyInto_field ((be32 xIm).take (64 - (natBytes xRe).length) ++ natBytes xRe)
      (List.replicate 32 0) (natBytes yIm) 32
      (3 * 32 - ((natBytes yIm).length : Int)) (3 * 32) l3 (by rw [hpre]; norm_num) rfl
    rw [p3] at h
    exact h
  have h4 : copyInto ((be32 xIm).take (64 - (natBytes xRe).length) ++ natBytes xRe
        ++ be32 yIm ++ List.replicate 32 0)
      (4 * 32 - ((natBytes yRe).length : Int)) (4 * 32) (natBytes yRe)
      = some ((be32 xIm).take (64 - (natBytes xRe).length) ++ natBytes xRe
          ++ be32 yIm ++ be32 yRe) := by
    have h := copyInto_field
      ((be32 xIm).take (64 - (natBytes xRe).length) ++ natBytes xRe ++ be32 yIm) []
      (natBytes yRe) 32
      (4 * 32 - ((natBytes yRe).length : Int)) (4 * 32) l4
      (by rw [List.length_append, hpre, be32_length]; norm_num) rfl
    rw [p4] at h
    simpa using h
  refine ⟨hL1, hL2, ?_⟩
  simp only [parseG2PointBuffer, h00, h01, h10, h11, bigBytes_natCast, Option.bind_eq_bind,
    Option.some_bind, h1, h2, h3, h4, Option.pure_def]

/-- C17: in `parseG2Point`, for `xIm < 2 ^ 256` and `2 ^ 256 ≤ xRe < 2 ^ 512`
(the other two fields below `2 ^ 256`) the encoding step does not fail: the
`L` bytes of `xRe`, `32 < L ≤ 64`, are written at `[64 - L, 64)` over the low
bytes of the `xIm` field, so for `L = 64` the first 64 bytes are the 64-byte
big-endian encoding of `xRe`.  In general each value is written so that it
ends at the end of its field, whatever lies before it, as long as `xIm` has at
most 32 bytes, `xRe` 64, `yIm` 96 and `yRe` 128; only `xIm` fails when wider
than 32 bytes. -/
theorem parseG2Point_overlap (lib : CurveLib) (s : Strings2x2) (xIm xRe yIm yRe : Nat)
    (h00 : parseBigInt s.1.1 = some (xIm : Int)) (h01 : parseBigInt s.1.2 = some (xRe : Int))
    (h10 : parseBigInt s.2.1 = some (yIm : Int)) (h11 : parseBigInt s.2.2 = some (yRe : Int))
    (hxIm : xIm < 2 ^ 256) (hlo : 2 ^ 256 ≤ xRe) (hhi : xRe < 2 ^ 512)
    (hyIm : yIm < 2 ^ 256) (hyRe : yRe < 2 ^ 256) :
    32 < (natBytes xRe).length ∧ (natBytes xRe).length ≤ 64 ∧
      parseG2PointBuffer s = some ((be32 xIm).take (64 - (natBytes xRe).length)
        ++ natBytes xRe ++ be32 yIm ++ be32 yRe) ∧
      parseG2Point lib s = lib.unmarshalG2 ((be32 xIm).take (64 - (natBytes xRe).length)
        ++ natBytes xRe ++ be32 yIm ++ be32 yRe) ∧
      ((natBytes xRe).length = 64 →
        parseG2PointBuffer s = some (bigEndian 64 xRe ++ be32 yIm ++ be32 yRe)) ∧
      (∀ (t : Strings2x2) (a b c d : Int), parseBigInt t.1.1 = some a →
        parseBigInt t.1.2 = some b → parseBigInt t.2.1 = some c → parseBigInt t.2.2 = some d →
        ((bigBytes a).length ≤ 32 → (bigBytes b).length ≤ 64 → (bigBytes c).length ≤ 96 →
          (bigBytes d).length ≤ 128 →
          parseG2PointBuffer t = some
            (writeEnd (writeEnd (writeEnd (writeEnd (List.replicate 128 0) 32 (bigBytes a))
              64 (bigBytes b)) 96 (bigBytes c)) 128 (bigBytes d))) ∧
        (32 < (bigBytes a).length → parseG2PointBuffer t = none)) := by
  obtain ⟨hL1, hL2, hbuf⟩ :=
    parseG2PointBuffer_wide_xRe s xIm xRe yIm yRe h00 h01 h10 h11 hxIm hlo hhi hyIm hyRe
  refine ⟨hL1, hL2, hbuf, by simp [parseG2Point, hbuf], ?_, ?_⟩
  · intro hL
    have e64 : (256 : Nat) ^ 64 = 2 ^ 512 := by norm_num
    have hpad := natBytes_pad 64 xRe (by omega)
    rw [hL] at hpad
    rw [hbuf, hL, ← hpad]
    simp
  · intro t a b c d ha hb hc hd
    exact ⟨parseG2PointBuffer_writeEnd t a b c d ha hb hc hd,
      parseG2PointBuffer_wide_xIm t a ha⟩

set_option maxRecDepth 100000 in
/-- C17 at `xIm = 2`, `xRe = 2 ^ 256` (33 bytes), `yIm = 3`, `yRe = 4`: the
top byte of `xRe` replaces the last byte of the `xIm` field, and the buffer is
the encoding of `(1, 0, 3, 4)`. -/
theorem parseG2Point_overlap_witness :
    parseG2PointBuffer
        (("0x2".toList, ("0x1" ++ String.mk (List.replicate 64 '0')).toList),
          ("0x3".toList, "0x4".toList))
      = some (be32 1 ++ be32 0 ++ be32 3 ++ be32 4) :=
  (parseG2Point_overlap intLib
      (("0x2".toList, ("0x1" ++ String.mk (List.replicate 64 '0')).toList),
        ("0x3".toList, "0x4".toList))
      2 (2 ^ 256) 3 4 (by decide) (by decide) (by decide) (by decide)
      (by norm_num) (by norm_num) (by norm_num) (by norm_num) (by norm_num)).2.2.1.trans
    (by decide)

end GenG16
